import Mathlib

/-!
Verification development for the dataroom-spa hierarchical entity lifecycle
engine: a shallow embedding of the name utilities (`src/core/utils/names.ts`),
tree utilities (`src/core/utils/tree.ts`), the Dexie-backed repositories
(`DataroomRepo`, `FolderRepo`, `FileRepo`, `BlobRepo`) and the services
(`DataroomService`, `FolderService`, `FileService`), together with theorems
about the frozen claims.

JavaScript strings are modelled as `List Char`; machine integers and
timestamps as `Nat`; ids (crypto-random UUID strings in the source) as `Nat`
drawn from a monotone counter in the store state, which soundly models their
global freshness.  `Date.now()` is modelled as a monotone clock in the state.
Asynchronous service methods are sequential state transformers
`DB → Except Err α × DB` (the single cooperative execution context of the
source); thrown exceptions are `Except.error` values carrying the error kind.
Dexie sibling listings are returned in insertion order: the source sorts them
by a locale-aware comparator, but no verified property depends on sibling
order (collision checks use `some`/set membership, which are order-blind).
-/

namespace Spa

/-- JavaScript string, modelled as its list of characters. -/
abbrev JSStr := List Char

/-- Error taxonomy of `src/core/errors.ts`, by kind. -/
inductive Err
  | notFound
  | alreadyExists
  | fileValidation
  | nameValidation
  | invalidOperation
  | databaseError
  | blobError
  deriving DecidableEq, Repr

instance {ε α : Type} [DecidableEq ε] [DecidableEq α] :
    DecidableEq (Except ε α)
  | .ok a, .ok b =>
    if h : a = b then .isTrue (by subst h; rfl)
    else .isFalse (by intro hh; cases hh; exact h rfl)
  | .ok _, .error _ => .isFalse (by intro h; cases h)
  | .error _, .ok _ => .isFalse (by intro h; cases h)
  | .error e, .error e2 =>
    if h : e = e2 then .isTrue (by subst h; rfl)
    else .isFalse (by intro hh; cases hh; exact h rfl)

/-- ASCII whitespace recognized by the model of JS `trim` and `\s`. -/
def isJsWs (c : Char) : Bool :=
  c == ' ' || c == '\t' || c == '\n' || c == '\r'

/-- Model of JS `String.prototype.trim`: drop whitespace from both ends. -/
def jsTrim (l : JSStr) : JSStr :=
  ((l.dropWhile isJsWs).reverse.dropWhile isJsWs).reverse

/-- Helper for `collapseWs`: the flag records whether the previous character
was part of a whitespace run already emitted as a single space. -/
def collapseWsAux : Bool → JSStr → JSStr
  | _, [] => []
  | prevWs, c :: rest =>
    if isJsWs c then
      if prevWs then collapseWsAux true rest
      else ' ' :: collapseWsAux true rest
    else c :: collapseWsAux false rest

/-- Model of `.replace(/\s+/g, " ")`: every maximal whitespace run becomes a
single space. -/
def collapseWs (l : JSStr) : JSStr := collapseWsAux false l

/-- `normalizeName` from `names.ts`: `name.trim().replace(/\s+/g, " ")`. -/
def normalizeName (name : JSStr) : JSStr := collapseWs (jsTrim name)

/-- Index of the last `'.'` in the list, if any: JS `lastIndexOf(".")` with
`-1` modelled as `none`. -/
def lastIndexOfDot : JSStr → Option Nat
  | [] => none
  | c :: rest =>
    match lastIndexOfDot rest with
    | some i => some (i + 1)
    | none => if c = '.' then some 0 else none

/-- `splitName` from `names.ts`: split into base and extension at the last
dot; no dot, or a dot only at position 0, yields an empty extension. -/
def splitName (name : JSStr) : JSStr × JSStr :=
  match lastIndexOfDot name with
  | none => (name, [])
  | some 0 => (name, [])
  | some i => (name.take i, name.drop i)

/-- Digit expansion driven by structural fuel (the number of divisions by
ten is at most the fuel whenever `n < 10 ^ (fuel + 1)`, so `natToChars`
below always supplies enough). -/
def natToCharsAux : Nat → Nat → JSStr
  | 0, n => [Nat.digitChar n]
  | fuel + 1, n =>
    if n < 10 then [Nat.digitChar n]
    else natToCharsAux fuel (n / 10) ++ [Nat.digitChar (n % 10)]

/-- Decimal digit characters of a natural number, most significant first:
the model of JS template interpolation of the loop counter. -/
def natToChars (n : Nat) : JSStr := natToCharsAux n n

/-- The candidate name tried by `generateUniqueName` at counter `i`. -/
def candidateName (base ext : JSStr) (i : Nat) : JSStr :=
  base ++ (" (".data ++ natToChars i ++ ")".data) ++ ext

/-- The `while (existingNames.has(candidate))` loop of `generateUniqueName`,
with explicit fuel; `existingNames.length + 1` steps always suffice because
the candidates are pairwise distinct strings. -/
def genLoop (base ext : JSStr) (existingNames : List JSStr) :
    Nat → Nat → JSStr
  | i, 0 => candidateName base ext i
  | i, fuel + 1 =>
    if candidateName base ext i ∈ existingNames then
      genLoop base ext existingNames (i + 1) fuel
    else candidateName base ext i

/-- `generateUniqueName` from `names.ts`: return the name unchanged if free,
else append `" (k)"` before the extension for the least free `k ≥ 1`. -/
def generateUniqueName (baseName : JSStr) (existingNames : List JSStr) :
    JSStr :=
  if baseName ∈ existingNames then
    let p := splitName baseName
    genLoop p.1 p.2 existingNames 1 (existingNames.length + 1)
  else baseName

/-- The forbidden-character class `[<>:"/\\|?*]` of `validateName`. -/
def invalidChars : List Char :=
  ['<', '>', ':', '"', '/', '\\', '|', '?', '*']

/-- Reserved device names checked (upper-cased) by `validateName`. -/
def reservedNames : List JSStr :=
  ["CON".data, "PRN".data, "AUX".data, "NUL".data,
   "COM1".data, "COM2".data, "COM3".data, "COM4".data, "COM5".data,
   "COM6".data, "COM7".data, "COM8".data, "COM9".data,
   "LPT1".data, "LPT2".data, "LPT3".data, "LPT4".data, "LPT5".data,
   "LPT6".data, "LPT7".data, "LPT8".data, "LPT9".data]

/-- Model of JS `toUpperCase` restricted to the characters compared here. -/
def jsToUpper (l : JSStr) : JSStr := l.map Char.toUpper

/-- Entity kind argument of `validateName`. -/
inductive NameKind
  | file
  | folder
  deriving DecidableEq, Repr

/-- `validateName` from `names.ts`, as an `Except`: `Except.error
Err.nameValidation` models a thrown `NameValidationError`. -/
def validateName (name : JSStr) (type : NameKind) : Except Err Unit :=
  if name = [] then .error .nameValidation
  else
    let trimmed := jsTrim name
    if trimmed.length = 0 then .error .nameValidation
    else if 255 < trimmed.length then .error .nameValidation
    else if trimmed.any (fun c => c ∈ invalidChars) then
      .error .nameValidation
    else
      let nameToCheck :=
        match type with
        | .file => (splitName trimmed).1
        | .folder => trimmed
      if jsToUpper nameToCheck ∈ reservedNames then .error .nameValidation
      else
        match type with
        | .folder => .ok ()
        | .file =>
          let p := splitName trimmed
          if p.1.length = 0 then .error .nameValidation
          else if p.2 ≠ [] ∧ p.2 ≠ ".pdf".data then .error .nameValidation
          else .ok ()

/-- `Dataroom` record from `types.ts`. -/
structure Dataroom where
  id : Nat
  name : JSStr
  createdAt : Nat
  updatedAt : Nat
  deriving DecidableEq, Repr

/-- `Folder` record from `types.ts`; `parentId = none` means room root. -/
structure Folder where
  id : Nat
  dataroomId : Nat
  parentId : Option Nat
  name : JSStr
  createdAt : Nat
  updatedAt : Nat
  deriving DecidableEq, Repr

/-- `FileObject` record from `types.ts`. -/
structure FileObject where
  id : Nat
  dataroomId : Nat
  parentId : Option Nat
  name : JSStr
  mimeType : JSStr
  size : Nat
  blobKey : Nat
  createdAt : Nat
  updatedAt : Nat
  deriving DecidableEq, Repr

/-- `DBBlob` record from `db.ts`: an opaque byte payload under a key. -/
structure DBBlob where
  key : Nat
  data : List Nat
  deriving DecidableEq, Repr

/-- The whole persistent store (`db.ts`) plus the id counter modelling
`generateId` and the clock modelling `Date.now()`.  Tables are lists in
insertion order; primary keys are unique in every state the app can reach. -/
structure DB where
  datarooms : List Dataroom
  folders : List Folder
  files : List FileObject
  blobs : List DBBlob
  nextId : Nat
  clock : Nat
  deriving DecidableEq, Repr

/-- The empty store. -/
def DB.empty : DB :=
  { datarooms := [], folders := [], files := [], blobs := [],
    nextId := 0, clock := 0 }

/-- The async computation monad: state transformer over `DB` with typed
exceptions.  A thrown service error is `Except.error`; the state component
is the store after all writes performed before the throw. -/
def M (α : Type) : Type := DB → Except Err α × DB

/-- Return a pure value, leaving the store unchanged. -/
def M.pure {α : Type} (a : α) : M α := fun db => (.ok a, db)

/-- Sequential composition; an error short-circuits, keeping the state
reached so far (no rollback, as in the source). -/
def M.bind {α β : Type} (x : M α) (f : α → M β) : M β := fun db =>
  match x db with
  | (.ok a, db1) => f a db1
  | (.error e, db1) => (.error e, db1)

instance : Monad M where
  pure := M.pure
  bind := M.bind

/-- Model of a `throw new ...Error` statement. -/
def M.throw {α : Type} (e : Err) : M α := fun db => (.error e, db)

/-- Lift a pure `Except` computation (e.g. `validateName`) into `M`. -/
def M.liftExcept {α : Type} (x : Except Err α) : M α := fun db => (x, db)

/-- `generateId` from `utils/ids.ts`: a globally fresh identifier, modelled
by the store's monotone counter. -/
def generateId : M Nat := fun db =>
  (.ok db.nextId, { db with nextId := db.nextId + 1 })

/-- `Date.now()`: the store's monotone clock. -/
def dateNow : M Nat := fun db =>
  (.ok db.clock, { db with clock := db.clock + 1 })

/-- `DataroomRepo.insert`: Dexie `add` fails on a duplicate primary key
(wrapped as `DatabaseError`), otherwise appends. -/
def DataroomRepo.insert (dataroom : Dataroom) : M Nat := fun db =>
  if db.datarooms.any (fun d => d.id == dataroom.id) then
    (.error .databaseError, db)
  else (.ok dataroom.id, { db with datarooms := db.datarooms ++ [dataroom] })

/-- `DataroomRepo.get`: point lookup by primary key. -/
def DataroomRepo.get (id : Nat) : M (Option Dataroom) := fun db =>
  (.ok (db.datarooms.find? (fun d => d.id == id)), db)

/-- `DataroomRepo.getRequired`: throw `NotFoundError` on a miss. -/
def DataroomRepo.getRequired (id : Nat) : M Dataroom := do
  match ← DataroomRepo.get id with
  | some dataroom => pure dataroom
  | none => M.throw .notFound

/-- `DataroomRepo.list` (sorting omitted: no verified property depends on
the listing order, and collision checks are order-blind). -/
def DataroomRepo.list : M (List Dataroom) := fun db => (.ok db.datarooms, db)

/-- `DataroomRepo.updateName`: update `name` and `updatedAt` of the record
with the given key; returns the Dexie update count. -/
def DataroomRepo.updateName (id : Nat) (name : JSStr) : M Nat := do
  let t ← dateNow
  fun db =>
    (.ok (db.datarooms.countP (fun d => d.id == id)),
     { db with datarooms := db.datarooms.map (fun d =>
         if d.id == id then { d with name := name, updatedAt := t } else d) })

/-- `DataroomRepo.touch`: bump `updatedAt` of the record with the key. -/
def DataroomRepo.touch (id : Nat) : M Nat := do
  let t ← dateNow
  fun db =>
    (.ok (db.datarooms.countP (fun d => d.id == id)),
     { db with datarooms := db.datarooms.map (fun d =>
         if d.id == id then { d with updatedAt := t } else d) })

/-- `DataroomRepo.delete`: Dexie delete by key; a miss is a no-op. -/
def DataroomRepo.delete (id : Nat) : M Unit := fun db =>
  (.ok (), { db with datarooms := db.datarooms.filter (fun d => d.id != id) })

/-- `FolderRepo.insert` (Dexie `add`). -/
def FolderRepo.insert (folder : Folder) : M Nat := fun db =>
  if db.folders.any (fun f => f.id == folder.id) then
    (.error .databaseError, db)
  else (.ok folder.id, { db with folders := db.folders ++ [folder] })

/-- `FolderRepo.get`. -/
def FolderRepo.get (id : Nat) : M (Option Folder) := fun db =>
  (.ok (db.folders.find? (fun f => f.id == id)), db)

/-- `FolderRepo.getRequired`. -/
def FolderRepo.getRequired (id : Nat) : M Folder := do
  match ← FolderRepo.get id with
  | some folder => pure folder
  | none => M.throw .notFound

/-- `FolderRepo.listByParent`: folders of the room with the given parent
(sorting omitted, see module docstring). -/
def FolderRepo.listByParent (parentId : Option Nat) (dataroomId : Nat) :
    M (List Folder) := fun db =>
  (.ok (db.folders.filter (fun f =>
      f.dataroomId == dataroomId && f.parentId == parentId)), db)

/-- `FolderRepo.listByDataroom`. -/
def FolderRepo.listByDataroom (dataroomId : Nat) : M (List Folder) := fun db =>
  (.ok (db.folders.filter (fun f => f.dataroomId == dataroomId)), db)

/-- `FolderRepo.updateName`: updates `name` and `updatedAt` only — the
record's `parentId` is untouched. -/
def FolderRepo.updateName (id : Nat) (name : JSStr) : M Nat := do
  let t ← dateNow
  fun db =>
    (.ok (db.folders.countP (fun f => f.id == id)),
     { db with folders := db.folders.map (fun f =>
         if f.id == id then { f with name := name, updatedAt := t } else f) })

/-- `FolderRepo.delete`: Dexie delete by key. -/
def FolderRepo.delete (id : Nat) : M Unit := fun db =>
  (.ok (), { db with folders := db.folders.filter (fun f => f.id != id) })

/-- `FolderRepo.nameExistsInParent`. -/
def FolderRepo.nameExistsInParent (name : JSStr) (parentId : Option Nat)
    (dataroomId : Nat) (excludeId : Option Nat) : M Bool := do
  let siblings ← FolderRepo.listByParent parentId dataroomId
  pure (siblings.any (fun folder =>
    folder.name == name && some folder.id != excludeId))

/-- `FolderRepo.deleteByDataroom`: bulk delete, returning the count. -/
def FolderRepo.deleteByDataroom (dataroomId : Nat) : M Nat := fun db =>
  (.ok (db.folders.countP (fun f => f.dataroomId == dataroomId)),
   { db with folders := db.folders.filter (fun f =>
       f.dataroomId != dataroomId) })

/-- `FileRepo.insert` (Dexie `add`). -/
def FileRepo.insert (file : FileObject) : M Nat := fun db =>
  if db.files.any (fun f => f.id == file.id) then
    (.error .databaseError, db)
  else (.ok file.id, { db with files := db.files ++ [file] })

/-- `FileRepo.get`. -/
def FileRepo.get (id : Nat) : M (Option FileObject) := fun db =>
  (.ok (db.files.find? (fun f => f.id == id)), db)

/-- `FileRepo.getRequired`. -/
def FileRepo.getRequired (id : Nat) : M FileObject := do
  match ← FileRepo.get id with
  | some file => pure file
  | none => M.throw .notFound

/-- `FileRepo.listByParent` (sorting omitted, see module docstring). -/
def FileRepo.listByParent (parentId : Option Nat) (dataroomId : Nat) :
    M (List FileObject) := fun db =>
  (.ok (db.files.filter (fun f =>
      f.dataroomId == dataroomId && f.parentId == parentId)), db)

/-- `FileRepo.listByDataroom`. -/
def FileRepo.listByDataroom (dataroomId : Nat) : M (List FileObject) :=
  fun db => (.ok (db.files.filter (fun f => f.dataroomId == dataroomId)), db)

/-- `FileRepo.updateName`: updates `name` and `updatedAt` only — the
record's `parentId` is untouched. -/
def FileRepo.updateName (id : Nat) (name : JSStr) : M Nat := do
  let t ← dateNow
  fun db =>
    (.ok (db.files.countP (fun f => f.id == id)),
     { db with files := db.files.map (fun f =>
         if f.id == id then { f with name := name, updatedAt := t } else f) })

/-- `FileRepo.delete`: Dexie delete by key. -/
def FileRepo.delete (id : Nat) : M Unit := fun db =>
  (.ok (), { db with files := db.files.filter (fun f => f.id != id) })

/-- `FileRepo.nameExistsInParent`. -/
def FileRepo.nameExistsInParent (name : JSStr) (parentId : Option Nat)
    (dataroomId : Nat) (excludeId : Option Nat) : M Bool := do
  let siblings ← FileRepo.listByParent parentId dataroomId
  pure (siblings.any (fun file =>
    file.name == name && some file.id != excludeId))

/-- `FileRepo.deleteByDataroom`: bulk delete, returning the count. -/
def FileRepo.deleteByDataroom (dataroomId : Nat) : M Nat := fun db =>
  (.ok (db.files.countP (fun f => f.dataroomId == dataroomId)),
   { db with files := db.files.filter (fun f => f.dataroomId != dataroomId) })

/-- `BlobRepo.put`: Dexie `put` upserts under the key and returns it. -/
def BlobRepo.put (key : Nat) (data : List Nat) : M Nat := fun db =>
  if db.blobs.any (fun b => b.key == key) then
    (.ok key, { db with blobs := db.blobs.map (fun b =>
        if b.key == key then { b with data := data } else b) })
  else (.ok key, { db with blobs := db.blobs ++ [⟨key, data⟩] })

/-- `BlobRepo.get`. -/
def BlobRepo.get (key : Nat) : M (Option (List Nat)) := fun db =>
  (.ok ((db.blobs.find? (fun b => b.key == key)).map (fun b => b.data)), db)

/-- `BlobRepo.exists`. -/
def BlobRepo.exists (key : Nat) : M Bool := fun db =>
  (.ok (db.blobs.any (fun b => b.key == key)), db)

/-- `BlobRepo.delete`: delete by key; a miss is a no-op. -/
def BlobRepo.delete (key : Nat) : M Unit := fun db =>
  (.ok (), { db with blobs := db.blobs.filter (fun b => b.key != key) })

/-- `BlobRepo.deleteMany`: delete each existing key, counting deletions. -/
def BlobRepo.deleteMany (keys : List Nat) : M Nat :=
  keys.foldlM (fun deletedCount key => do
    let existed ← BlobRepo.exists key
    if existed then do
      BlobRepo.delete key
      pure (deletedCount + 1)
    else pure deletedCount) 0

/-- `BlobRepo.createBlobUrl`: `null` when the blob is missing, else an
object URL (modelled as an opaque string derived from the key). -/
def BlobRepo.createBlobUrl (key : Nat) : M (Option JSStr) := do
  match ← BlobRepo.get key with
  | none => pure none
  | some _ => pure (some ("blob:".data ++ natToChars key))

/-- `getDescendantFolderIds` from `utils/tree.ts`, with explicit recursion
fuel (the source recursion terminates because reachable stores are acyclic;
`folders.length + 1` levels always suffice there). -/
def getDescendantFolderIdsFuel (fuel : Nat) (folderId : Nat)
    (folders : List Folder) : List Nat :=
  match fuel with
  | 0 => []
  | f + 1 =>
    (folders.filter (fun c => c.parentId == some folderId)).flatMap
      (fun child => child.id :: getDescendantFolderIdsFuel f child.id folders)

/-- `getDescendantFolderIds`: every folder id whose parent chain passes
through `folderId`, in child-first depth-first order. -/
def getDescendantFolderIds (folderId : Nat) (folders : List Folder) :
    List Nat :=
  getDescendantFolderIdsFuel (folders.length + 1) folderId folders

/-- The `NameCollisionAction` union from `types.ts`. -/
inductive NameCollisionAction
  | replace
  | keepBoth
  | cancel
  deriving DecidableEq, Repr

/-- `resolveNameCollision` from `utils/nameCollision.ts`, instantiated for
datarooms (`entityType = dataroom`: name validation skipped, replace
unsupported); returns the final name. -/
def resolveDataroomNameCollision (name : JSStr)
    (action : NameCollisionAction) (existingDatarooms : List Dataroom)
    (excludeId : Option Nat) : Except Err JSStr :=
  let normalizedName := normalizeName name
  match existingDatarooms.find? (fun item =>
      item.name == normalizedName && some item.id != excludeId) with
  | none => .ok normalizedName
  | some _ =>
    match action with
    | .cancel => .error .alreadyExists
    | .replace => .error .invalidOperation
    | .keepBoth =>
      .ok (generateUniqueName normalizedName
        ((existingDatarooms.filter (fun item =>
            some item.id != excludeId)).map (fun item => item.name)))

/-- Result record of `FolderService.delete`. -/
structure DeleteCounts where
  folders : Nat
  files : Nat
  deriving DecidableEq, Repr

/-- Result record of `DataroomService.delete`. -/
structure DataroomDeleteCounts where
  folders : Nat
  files : Nat
  blobs : Nat
  deriving DecidableEq, Repr

/-- Input to `FileService.upload`: a JS `File` (name, MIME type, size, and
the byte payload stored as its blob). -/
structure JSFile where
  name : JSStr
  type : JSStr
  size : Nat
  bytes : List Nat
  deriving DecidableEq, Repr

/-- The 50 MB ceiling of `FileService.upload`. -/
def maxSizeBytes : Nat := 50 * 1024 * 1024

/-- `FileService.delete`: blob first, then the record, then touch the room. -/
def FileService.delete (id : Nat) : M Unit := do
  let file ← FileRepo.getRequired id
  BlobRepo.delete file.blobKey
  FileRepo.delete id
  let _ ← DataroomRepo.touch file.dataroomId
  pure ()

/-- `FileService.get`. -/
def FileService.get (id : Nat) : M FileObject := FileRepo.getRequired id

/-- `FileService.upload` from `FileService.ts`. -/
def FileService.upload (file : JSFile) (dataroomId : Nat)
    (parentId : Option Nat) (onNameCollision : NameCollisionAction) :
    M FileObject := do
  if file.type ≠ "application/pdf".data then M.throw .fileValidation
  else if maxSizeBytes < file.size then M.throw .fileValidation
  else do
    let normalizedName := normalizeName file.name
    M.liftExcept (validateName normalizedName .file)
    let _ ← DataroomRepo.getRequired dataroomId
    let _ ← match parentId with
      | some p => do
        let _ ← FolderRepo.getRequired p
        pure ()
      | none => pure ()
    let nameExists ← FileRepo.nameExistsInParent normalizedName parentId
      dataroomId none
    let finalName ←
      if nameExists then
        match onNameCollision with
        | .cancel => M.throw .alreadyExists
        | .replace => do
          let existingFiles ← FileRepo.listByParent parentId dataroomId
          let _ ← match existingFiles.find? (fun f =>
              f.name == normalizedName) with
            | some existingFile => FileService.delete existingFile.id
            | none => pure ()
          pure normalizedName
        | .keepBoth => do
          let siblings ← FileRepo.listByParent parentId dataroomId
          pure (generateUniqueName normalizedName
            (siblings.map (fun f => f.name)))
      else pure normalizedName
    let blobKey ← generateId
    let _ ← BlobRepo.put blobKey file.bytes
    let now ← dateNow
    let id ← generateId
    let fileObject : FileObject :=
      { id := id, dataroomId := dataroomId, parentId := parentId,
        name := finalName, mimeType := file.type, size := file.size,
        blobKey := blobKey, createdAt := now, updatedAt := now }
    let _ ← FileRepo.insert fileObject
    let _ ← DataroomRepo.touch dataroomId
    pure fileObject

/-- `FileService.rename`. -/
def FileService.rename (id : Nat) (name : JSStr)
    (onNameCollision : NameCollisionAction) : M FileObject := do
  let normalizedName := normalizeName name
  M.liftExcept (validateName normalizedName .file)
  let file ← FileRepo.getRequired id
  let nameExists ← FileRepo.nameExistsInParent normalizedName file.parentId
    file.dataroomId (some id)
  let finalName ←
    if nameExists then
      match onNameCollision with
      | .cancel => M.throw .alreadyExists
      | .replace => do
        let existingFiles ← FileRepo.listByParent file.parentId file.dataroomId
        let _ ← match existingFiles.find? (fun f =>
            f.name == normalizedName && f.id != id) with
          | some existingFile => FileService.delete existingFile.id
          | none => pure ()
        pure normalizedName
      | .keepBoth => do
        let siblings ← FileRepo.listByParent file.parentId file.dataroomId
        pure (generateUniqueName normalizedName
          ((siblings.filter (fun f => f.id != id)).map (fun f => f.name)))
    else pure normalizedName
  let _ ← FileRepo.updateName id finalName
  let _ ← DataroomRepo.touch file.dataroomId
  FileService.get id

/-- `FileService.getBlobUrl`: `null` when the file record is missing. -/
def FileService.getBlobUrl (id : Nat) : M (Option JSStr) := do
  match ← FileRepo.get id with
  | none => pure none
  | some file => BlobRepo.createBlobUrl file.blobKey

/-- Result record of `FileService.downloadBlob`. -/
structure DownloadResult where
  blob : List Nat
  filename : JSStr
  deriving DecidableEq, Repr

/-- `FileService.downloadBlob`: `null` when the file record or its blob is
missing. -/
def FileService.downloadBlob (id : Nat) : M (Option DownloadResult) := do
  match ← FileRepo.get id with
  | none => pure none
  | some file =>
    match ← BlobRepo.get file.blobKey with
    | none => pure none
    | some blob => pure (some { blob := blob, filename := file.name })

/-- `FileService.move`: validates the destination, then calls
`FileRepo.updateName` (which does not change `parentId`). -/
def FileService.move (id : Nat) (newParentId : Nat) : M FileObject := do
  let file ← FileRepo.getRequired id
  let _ ← FolderRepo.getRequired newParentId
  let nameExists ← FileRepo.nameExistsInParent file.name (some newParentId)
    file.dataroomId (some id)
  if nameExists then M.throw .alreadyExists
  else do
    let _ ← FileRepo.updateName id file.name
    let _ ← DataroomRepo.touch file.dataroomId
    FileService.get id

/-- `FolderService.create` from `FolderService.ts`. -/
def FolderService.create (name : JSStr) (dataroomId : Nat)
    (parentId : Option Nat) (onNameCollision : NameCollisionAction) :
    M Folder := do
  let normalizedName := normalizeName name
  M.liftExcept (validateName normalizedName .folder)
  let _ ← DataroomRepo.getRequired dataroomId
  let _ ← match parentId with
    | some p => do
      let _ ← FolderRepo.getRequired p
      pure ()
    | none => pure ()
  let nameExists ← FolderRepo.nameExistsInParent normalizedName parentId
    dataroomId none
  let finalName ←
    if nameExists then
      match onNameCollision with
      | .cancel => M.throw .alreadyExists
      | .replace => M.throw .invalidOperation
      | .keepBoth => do
        let siblings ← FolderRepo.listByParent parentId dataroomId
        pure (generateUniqueName normalizedName
          (siblings.map (fun f => f.name)))
    else pure normalizedName
  let now ← dateNow
  let id ← generateId
  let folder : Folder :=
    { id := id, dataroomId := dataroomId, parentId := parentId,
      name := finalName, createdAt := now, updatedAt := now }
  let _ ← FolderRepo.insert folder
  let _ ← DataroomRepo.touch dataroomId
  pure folder

/-- `FolderService.get`. -/
def FolderService.get (id : Nat) : M Folder := FolderRepo.getRequired id

/-- `FolderService.rename`. -/
def FolderService.rename (id : Nat) (name : JSStr)
    (onNameCollision : NameCollisionAction) : M Folder := do
  let normalizedName := normalizeName name
  M.liftExcept (validateName normalizedName .folder)
  let folder ← FolderRepo.getRequired id
  let nameExists ← FolderRepo.nameExistsInParent normalizedName
    folder.parentId folder.dataroomId (some id)
  let finalName ←
    if nameExists then
      match onNameCollision with
      | .cancel => M.throw .alreadyExists
      | .replace => M.throw .invalidOperation
      | .keepBoth => do
        let siblings ← FolderRepo.listByParent folder.parentId
          folder.dataroomId
        pure (generateUniqueName normalizedName
          ((siblings.filter (fun f => f.id != id)).map (fun f => f.name)))
    else pure normalizedName
  let _ ← FolderRepo.updateName id finalName
  let _ ← DataroomRepo.touch folder.dataroomId
  FolderService.get id

/-- `FolderService.delete`: cascade delete of the folder, its descendant
folders and every file parented in any of them. -/
def FolderService.delete (id : Nat) : M DeleteCounts := do
  let folder ← FolderRepo.getRequired id
  let allFolders ← FolderRepo.listByDataroom folder.dataroomId
  let allFiles ← FileRepo.listByDataroom folder.dataroomId
  let descendantFolderIds := getDescendantFolderIds id allFolders
  let allAffectedFolderIds := id :: descendantFolderIds
  let deletedFiles ← allAffectedFolderIds.foldlM
    (fun deletedFiles folderId => do
      let folderFiles := allFiles.filter (fun f => f.parentId == some folderId)
      folderFiles.foldlM (fun acc file => do
        FileService.delete file.id
        pure (acc + 1)) deletedFiles)
    0
  let sortedFolderIds := descendantFolderIds.reverse
  let deletedFolders ← sortedFolderIds.foldlM
    (fun deletedFolders folderId => do
      FolderRepo.delete folderId
      pure (deletedFolders + 1)) 0
  FolderRepo.delete id
  let deletedFolders := deletedFolders + 1
  let _ ← DataroomRepo.touch folder.dataroomId
  pure { folders := deletedFolders, files := deletedFiles }

/-- `FolderService.move`: validates the destination (existence, cycle via
`getDescendantFolderIds`, name collision), then calls
`FolderRepo.updateName` (which does not change `parentId`). -/
def FolderService.move (id : Nat) (newParentId : Option Nat) : M Folder := do
  let folder ← FolderRepo.getRequired id
  let _ ← match newParentId with
    | some np => do
      let _ ← FolderRepo.getRequired np
      let allFolders ← FolderRepo.listByDataroom folder.dataroomId
      let descendantIds := getDescendantFolderIds id allFolders
      if np ∈ descendantIds then M.throw .invalidOperation
      else pure ()
    | none => pure ()
  let nameExists ← FolderRepo.nameExistsInParent folder.name newParentId
    folder.dataroomId (some id)
  if nameExists then M.throw .alreadyExists
  else do
    let _ ← FolderRepo.updateName id folder.name
    let _ ← DataroomRepo.touch folder.dataroomId
    FolderService.get id

/-- `DataroomService.create`. -/
def DataroomService.create (name : JSStr) : M Dataroom := do
  M.liftExcept (validateName name .folder)
  let existingDatarooms ← DataroomRepo.list
  let finalName ← M.liftExcept
    (resolveDataroomNameCollision name .cancel existingDatarooms none)
  let now ← dateNow
  let id ← generateId
  let dataroom : Dataroom :=
    { id := id, name := finalName, createdAt := now, updatedAt := now }
  let _ ← DataroomRepo.insert dataroom
  pure dataroom

/-- `DataroomService.rename`. -/
def DataroomService.rename (id : Nat) (name : JSStr) : M Dataroom := do
  M.liftExcept (validateName name .folder)
  let existingDatarooms ← DataroomRepo.list
  let finalName ← M.liftExcept
    (resolveDataroomNameCollision name .cancel existingDatarooms (some id))
  let _ ← DataroomRepo.updateName id finalName
  DataroomRepo.getRequired id

/-- `DataroomService.delete`: blobs of the room's files, then all files and
folders (the source's `Promise.all` pair, sequentialized), then the room
record itself; no step performs a required lookup. -/
def DataroomService.delete (id : Nat) : M DataroomDeleteCounts := do
  let files ← FileRepo.listByDataroom id
  let deletedBlobs ←
    if 0 < files.length then do
      let blobKeys := files.map (fun file => file.blobKey)
      BlobRepo.deleteMany blobKeys
    else pure 0
  let deletedFiles ← FileRepo.deleteByDataroom id
  let deletedFolders ← FolderRepo.deleteByDataroom id
  DataroomRepo.delete id
  pure { folders := deletedFolders, files := deletedFiles,
         blobs := deletedBlobs }

/-- Modelled from the spec: the rejection predicate of claim C7 read
literally — in particular its length clause applies to the name as given
(`it exceeds 255 characters`).  Used only for comparison with the embedded
`validateName`. -/
def validateRejectsSpec (name : JSStr) (kind : NameKind) : Bool :=
  let trimmed := jsTrim name
  let target :=
    match kind with
    | .file => (splitName trimmed).1
    | .folder => trimmed
  name == [] || trimmed == [] || decide (255 < name.length) ||
  trimmed.any (fun c => decide (c ∈ invalidChars)) ||
  decide (jsToUpper target ∈ reservedNames) ||
  (match kind with
   | .file =>
     let p := splitName trimmed
     p.1 == [] || (p.2 != [] && p.2 != ".pdf".data)
   | .folder => false)

/-- Modelled from the spec: the rejection predicate of claim C7 with its
length clause amended to measure the trimmed name (all other clauses are
the claim's own wording).  Used only for comparison with the embedded
`validateName`. -/
def validateRejectsAmended (name : JSStr) (kind : NameKind) : Bool :=
  let trimmed := jsTrim name
  let target :=
    match kind with
    | .file => (splitName trimmed).1
    | .folder => trimmed
  name == [] || trimmed == [] || decide (255 < trimmed.length) ||
  trimmed.any (fun c => decide (c ∈ invalidChars)) ||
  decide (jsToUpper target ∈ reservedNames) ||
  (match kind with
   | .file =>
     let p := splitName trimmed
     p.1 == [] || (p.2 != [] && p.2 != ".pdf".data)
   | .folder => false)

/-- Decimal value of a digit string; left inverse of `natToChars`, used to
prove that distinct counters yield distinct candidate names. -/
def charsVal (l : JSStr) : Nat :=
  l.foldl (fun a c => 10 * a + (c.toNat - 48)) 0

/-- The folder-store invariant maintained by every service operation: each
folder's id is below the id counter, and each folder's parent id (the id of
an already existing folder at creation time) is strictly below its own id. -/
def Inv (db : DB) : Prop :=
  ∀ f ∈ db.folders, f.id < db.nextId ∧ ∀ p, f.parentId = some p → p < f.id

/-- `ParentOf db p c`: the store holds a folder record with id `c` whose
`parentId` is `p`; following parent links upward is chasing this relation. -/
def ParentOf (db : DB) (p c : Nat) : Prop :=
  ∃ f ∈ db.folders, f.id = c ∧ f.parentId = some p

/-- A computation preserves the folder-store shape: it never lowers the id
counter and every folder record it leaves behind existed before with the
same id and the same parent (only `name`/`updatedAt` rewrites, deletions,
and untouched records).  Every service operation except
`FolderService.create` (which inserts) satisfies this. -/
def FolderSafe {α : Type} (m : M α) : Prop :=
  ∀ db : DB, db.nextId ≤ (m db).2.nextId ∧
    ∀ f ∈ (m db).2.folders, ∃ g ∈ db.folders,
      g.id = f.id ∧ g.parentId = f.parentId

/-- States reachable from the empty store by any sequence of service
operations (create, upload, rename, move, delete), counting the state after
a failed call as well (a failure may leave earlier sub-steps applied). -/
inductive Reachable : DB → Prop where
  | empty : Reachable DB.empty
  | dataroomCreate (name : JSStr) {db : DB} :
      Reachable db → Reachable (DataroomService.create name db).2
  | dataroomRename (id : Nat) (name : JSStr) {db : DB} :
      Reachable db → Reachable (DataroomService.rename id name db).2
  | dataroomDelete (id : Nat) {db : DB} :
      Reachable db → Reachable (DataroomService.delete id db).2
  | folderCreate (name : JSStr) (dataroomId : Nat) (parentId : Option Nat)
      (action : NameCollisionAction) {db : DB} :
      Reachable db →
      Reachable (FolderService.create name dataroomId parentId action db).2
  | folderRename (id : Nat) (name : JSStr) (action : NameCollisionAction)
      {db : DB} :
      Reachable db → Reachable (FolderService.rename id name action db).2
  | folderMove (id : Nat) (newParentId : Option Nat) {db : DB} :
      Reachable db → Reachable (FolderService.move id newParentId db).2
  | folderDelete (id : Nat) {db : DB} :
      Reachable db → Reachable (FolderService.delete id db).2
  | fileUpload (file : JSFile) (dataroomId : Nat) (parentId : Option Nat)
      (action : NameCollisionAction) {db : DB} :
      Reachable db →
      Reachable (FileService.upload file dataroomId parentId action db).2
  | fileRename (id : Nat) (name : JSStr) (action : NameCollisionAction)
      {db : DB} :
      Reachable db → Reachable (FileService.rename id name action db).2
  | fileMove (id : Nat) (newParentId : Nat) {db : DB} :
      Reachable db → Reachable (FileService.move id newParentId db).2
  | fileDelete (id : Nat) {db : DB} :
      Reachable db → Reachable (FileService.delete id db).2

/-- Concrete store for counterexamples and witnesses: one room (id 0)
holding root folder `A` (id 1), subfolder `B` (id 2, child of `A`), and a
file `L.pdf` (id 4, inside `B`) whose payload sits at blob key 3. -/
def dbW : DB :=
  { datarooms := [{ id := 0, name := "Room".data, createdAt := 0,
                    updatedAt := 0 }],
    folders := [{ id := 1, dataroomId := 0, parentId := none,
                  name := "A".data, createdAt := 0, updatedAt := 0 },
                { id := 2, dataroomId := 0, parentId := some 1,
                  name := "B".data, createdAt := 0, updatedAt := 0 }],
    files := [{ id := 4, dataroomId := 0, parentId := some 2,
                name := "L.pdf".data, mimeType := "application/pdf".data,
                size := 10, blobKey := 3, createdAt := 0, updatedAt := 0 }],
    blobs := [{ key := 3, data := [7, 7, 7] }],
    nextId := 5, clock := 1 }

/-- A non-PDF upload input used to witness the validation rejection. -/
def badFile : JSFile :=
  { name := "x.pdf".data, type := "text/plain".data, size := 3, bytes := [1] }

/-- A well-formed PDF upload input used to witness the round-trip. -/
def goodFile : JSFile :=
  { name := "q1.pdf".data, type := "application/pdf".data, size := 3,
    bytes := [9, 9] }

/-- The record created by uploading `goodFile` into folder 1 of `dbW`. -/
def uploadedFileW : FileObject :=
  { id := 6, dataroomId := 0, parentId := some 1, name := "q1.pdf".data,
    mimeType := "application/pdf".data, size := 3, blobKey := 5,
    createdAt := 1, updatedAt := 1 }

/-- The store after uploading `goodFile` into folder 1 of `dbW`. -/
def dbW2 : DB :=
  { datarooms := [{ id := 0, name := "Room".data, createdAt := 0,
                    updatedAt := 2 }],
    folders := dbW.folders,
    files := dbW.files ++ [uploadedFileW],
    blobs := dbW.blobs ++ [{ key := 5, data := [9, 9] }],
    nextId := 7, clock := 3 }

/-- A 256-character folder name whose trimmed form has only 250
characters: the input separating the two readings of claim C7's length
clause. -/
def overLongPadded : JSStr :=
  List.replicate 250 'a' ++ List.replicate 6 ' '

/-- The per-file body of the deletion loop in `FolderService.delete`. -/
def deleteFileStep (acc : Nat) (file : FileObject) : M Nat := do
  FileService.delete file.id
  pure (acc + 1)

/-- The per-folder body of the deletion loop in `FolderService.delete`. -/
def deleteFolderStep (acc : Nat) (folderId : Nat) : M Nat := do
  FolderRepo.delete folderId
  pure (acc + 1)

/-! ## Run lemmas for the computation monad -/

theorem M.run_pure {α : Type} (a : α) (db : DB) :
    (pure a : M α) db = (.ok a, db) := rfl

theorem M.run_bind {α β : Type} (x : M α) (f : α → M β) (db : DB) :
    (x >>= f) db =
      match x db with
      | (.ok a, db1) => f a db1
      | (.error e, db1) => (.error e, db1) := rfl

theorem M.bind_inv {α β : Type} {x : M α} {f : α → M β} {db db2 : DB}
    {b : β} (h : (x >>= f) db = (.ok b, db2)) :
    ∃ a db1, x db = (.ok a, db1) ∧ f a db1 = (.ok b, db2) := by
  rw [M.run_bind] at h
  rcases hx : x db with ⟨r, db1⟩
  rw [hx] at h
  cases r with
  | ok a => exact ⟨a, db1, rfl, h⟩
  | error e => simp at h

/-! ## C1: `move` does not persist the requested parent -/

/-- C1: the claim states that after a successful `FolderService.move` or
`FileService.move` the stored entity's `parentId` equals the requested
destination.  The code instead calls `updateName`, which rewrites only
`name` and `updatedAt`: on the concrete store `dbW`, moving folder 2 (child
of folder 1) to the room root succeeds yet both the returned and the stored
record still carry `parentId = some 1`, and moving file 4 (inside folder 2)
into folder 1 succeeds yet the record still carries `parentId = some 2`.
This evaluates the code at the failing input of the code-bug report. -/
theorem move_does_not_persist_new_parent :
    (FolderService.move 2 none dbW).1.map Folder.parentId = .ok (some 1) ∧
    ((FolderService.move 2 none dbW).2.folders.find?
        (fun f => f.id == 2)).map Folder.parentId = some (some 1) ∧
    (FileService.move 4 1 dbW).1.map FileObject.parentId = .ok (some 2) ∧
    ((FileService.move 4 1 dbW).2.files.find?
        (fun f => f.id == 4)).map FileObject.parentId = some (some 2) := by
  decide

/-! ## C2: cycle rejection on folder moves -/

/-- C2 counterexample: the claim states that `FolderService.move c d`
fails with `InvalidOperationError` for `d = c.id` itself as well; on the
concrete store `dbW`, moving folder 1 into itself is not rejected — the
call returns successfully. -/
theorem move_into_self_not_rejected :
    (1 = 1 ∨ 1 ∈ getDescendantFolderIds 1 dbW.folders) ∧
    (FolderService.move 1 (some 1) dbW).1 ≠ .error .invalidOperation ∧
    (FolderService.move 1 (some 1) dbW).1.map Folder.id = .ok 1 := by
  decide

/-- Every id produced by the descendant traversal is the id of some folder
in the traversed list. -/
theorem exists_of_mem_getDescendantFolderIdsFuel {fuel folderId x : Nat}
    {folders : List Folder}
    (h : x ∈ getDescendantFolderIdsFuel fuel folderId folders) :
    ∃ f ∈ folders, f.id = x := by
  induction fuel generalizing folderId with
  | zero => simp [getDescendantFolderIdsFuel] at h
  | succ n ih =>
    simp only [getDescendantFolderIdsFuel, List.mem_flatMap] at h
    rcases h with ⟨child, hchild, hx⟩
    rcases List.mem_cons.mp hx with rfl | hx
    · exact ⟨child, (List.mem_filter.mp hchild).1, rfl⟩
    · exact ih hx

/-- C2 (amended): for every folder `c` and every `d` strictly below `c`
(`d ∈ getDescendantFolderIds(c.id, allFolders)`), `FolderService.move c d`
fails with `InvalidOperationError` and the whole store — in particular
every folder record (ids, parentIds, names, timestamps) — is left
unchanged; moving `c` into itself is not covered by the cycle check (see
the counterexample). -/
theorem move_into_strict_descendant_rejected
    (id np : Nat) (db : DB) (folder : Folder)
    (hfolder : db.folders.find? (fun f => f.id == id) = some folder)
    (hdesc : np ∈ getDescendantFolderIds id
      (db.folders.filter (fun f => f.dataroomId == folder.dataroomId))) :
    FolderService.move id (some np) db = (.error .invalidOperation, db) := by
  obtain ⟨pf, hpf_mem, hpf_id⟩ :=
    exists_of_mem_getDescendantFolderIdsFuel hdesc
  obtain ⟨pf2, hpf2⟩ : ∃ y, db.folders.find? (fun f => f.id == np) = some y := by
    rw [← Option.isSome_iff_exists, List.find?_isSome]
    exact ⟨pf, (List.mem_filter.mp hpf_mem).1, by simp [hpf_id]⟩
  simp [FolderService.move, FolderRepo.getRequired, FolderRepo.get,
    FolderRepo.listByDataroom, Bind.bind, M.bind, Pure.pure, M.pure,
    M.throw, hfolder, hpf2, hdesc]

/-- C2 witness: instantiating the amended theorem on the concrete store
`dbW` (folder 2 is a strict descendant of folder 1). -/
theorem move_into_strict_descendant_rejected_witness :
    (dbW.folders.find? (fun f => f.id == 1) =
      some { id := 1, dataroomId := 0, parentId := none, name := "A".data,
             createdAt := 0, updatedAt := 0 }) ∧
    (2 ∈ getDescendantFolderIds 1
      (dbW.folders.filter (fun f => f.dataroomId == 0))) ∧
    FolderService.move 1 (some 2) dbW = (.error .invalidOperation, dbW) :=
  ⟨by decide, by decide,
    move_into_strict_descendant_rejected 1 2 dbW
      { id := 1, dataroomId := 0, parentId := none, name := "A".data,
        createdAt := 0, updatedAt := 0 }
      (by decide) (by decide)⟩

/-! ## C5: upload validation happens before any write -/

/-- C5: `FileService.upload` throws `FileValidationError` whenever the
MIME type is not `application/pdf` or the size exceeds 50 MiB, and these
checks run first: on such inputs the call returns the error with the store
completely unchanged (no blob, file, folder, or dataroom record touched). -/
theorem upload_rejects_non_pdf_or_oversize_before_any_write
    (file : JSFile) (dataroomId : Nat) (parentId : Option Nat)
    (action : NameCollisionAction) (db : DB)
    (h : file.type ≠ "application/pdf".data ∨ maxSizeBytes < file.size) :
    FileService.upload file dataroomId parentId action db =
      (.error .fileValidation, db) := by
  unfold FileService.upload
  by_cases ht : file.type = "application/pdf".data
  · rcases h with h | h
    · exact absurd ht h
    · simp [ht, h, M.throw]
  · simp [ht, M.throw]

/-- C5 witness: a `text/plain` upload attempt on the concrete store `dbW`
fails with `FileValidationError` and leaves the store unchanged. -/
theorem upload_rejects_non_pdf_witness :
    (badFile.type ≠ "application/pdf".data ∨
      maxSizeBytes < badFile.size) ∧
    FileService.upload badFile 0 none .keepBoth dbW =
      (.error .fileValidation, dbW) :=
  ⟨Or.inl (by decide),
    upload_rejects_non_pdf_or_oversize_before_any_write badFile 0 none
      .keepBoth dbW (Or.inl (by decide))⟩

/-! ## C10: blob access misses return null, not NotFound -/

/-- C10: `FileService.downloadBlob` and `FileService.getBlobUrl` return
`null` (here `none`) rather than raising `NotFoundError` when no file
record with the id exists, and `downloadBlob` also returns `null` when the
file exists but no blob is stored under its `blobKey`; the store is left
unchanged in all three cases. -/
theorem downloadBlob_getBlobUrl_null_on_missing (id : Nat) (db : DB) :
    (db.files.find? (fun f => f.id == id) = none →
      FileService.getBlobUrl id db = (.ok none, db) ∧
      FileService.downloadBlob id db = (.ok none, db)) ∧
    (∀ file, db.files.find? (fun f => f.id == id) = some file →
      db.blobs.find? (fun b => b.key == file.blobKey) = none →
      FileService.downloadBlob id db = (.ok none, db)) := by
  constructor
  · intro h
    constructor
    · simp [FileService.getBlobUrl, FileRepo.get, Bind.bind, M.bind, h,
        Pure.pure, M.pure]
    · simp [FileService.downloadBlob, FileRepo.get, Bind.bind, M.bind, h,
        Pure.pure, M.pure]
  · intro file hf hb
    simp [FileService.downloadBlob, FileRepo.get, BlobRepo.get, Bind.bind,
      M.bind, hf, hb, Pure.pure, M.pure]

/-- C10 witness: id 9 names no file in `dbW`, and both accessors return
`none`; file 4 with its blob deleted yields `none` from `downloadBlob`. -/
theorem downloadBlob_getBlobUrl_null_on_missing_witness :
    (dbW.files.find? (fun f => f.id == 9) = none) ∧
    FileService.getBlobUrl 9 dbW = (.ok none, dbW) ∧
    FileService.downloadBlob 9 dbW = (.ok none, dbW) :=
  ⟨by decide,
    ((downloadBlob_getBlobUrl_null_on_missing 9 dbW).1 (by decide)).1,
    ((downloadBlob_getBlobUrl_null_on_missing 9 dbW).1 (by decide)).2⟩

/-! ## C9: room deletion is total -/

/-- A monadic fold whose body always succeeds always succeeds. -/
theorem foldlM_ok {α β : Type} (f : β → α → M β)
    (hf : ∀ b a db, ∃ c db2, f b a db = (.ok c, db2)) :
    ∀ (l : List α) (b : β) (db : DB), ∃ c db2,
      (List.foldlM f b l) db = (.ok c, db2) := by
  intro l
  induction l with
  | nil => exact fun b db => ⟨b, db, rfl⟩
  | cons a l ih =>
    intro b db
    obtain ⟨c1, db1, h1⟩ := hf b a db
    obtain ⟨c2, db2, h2⟩ := ih c1 db1
    refine ⟨c2, db2, ?_⟩
    rw [List.foldlM_cons, M.run_bind, h1]
    exact h2

/-- The blob bulk-delete loop never fails, whatever the store contents. -/
theorem blobDeleteMany_aux_ok (keys : List Nat) (n : Nat) (db : DB) :
    ∃ m db2,
      (List.foldlM (fun deletedCount key => do
        let existed ← BlobRepo.exists key
        if existed then do
          BlobRepo.delete key
          pure (deletedCount + 1)
        else pure deletedCount) n keys : M Nat) db = (.ok m, db2) := by
  refine foldlM_ok _ ?_ keys n db
  intro b a db1
  by_cases hb : db1.blobs.any (fun bl => bl.key == a)
  · exact ⟨b + 1, { db1 with blobs := db1.blobs.filter (fun bl => bl.key != a) },
      by simp [Bind.bind, M.bind, BlobRepo.exists, BlobRepo.delete, hb,
        Pure.pure, M.pure]⟩
  · exact ⟨b, db1,
      by simp [Bind.bind, M.bind, BlobRepo.exists, hb, Pure.pure, M.pure]⟩

/-- C9: `DataroomService.delete` never raises `NotFoundError`; called with
an id for which no dataroom record exists and which owns no folders or
files, it completes successfully, returns zero counts, and leaves the
store unchanged. -/
theorem dataroomDelete_noop_on_unknown_id (id : Nat) (db : DB)
    (h1 : ∀ d ∈ db.datarooms, d.id ≠ id)
    (h2 : ∀ f ∈ db.folders, f.dataroomId ≠ id)
    (h3 : ∀ fi ∈ db.files, fi.dataroomId ≠ id) :
    DataroomService.delete id db =
      (.ok { folders := 0, files := 0, blobs := 0 }, db) ∧
    ∀ db2 : DB, (DataroomService.delete id db2).1 ≠ .error .notFound := by
  constructor
  · have hfiles : db.files.filter (fun f => f.dataroomId == id) = [] :=
      List.filter_eq_nil_iff.mpr (by intro a ha; simpa using h3 a ha)
    have hcf : db.files.countP (fun f => f.dataroomId == id) = 0 :=
      List.countP_eq_zero.mpr (by intro a ha; simpa using h3 a ha)
    have hcfo : db.folders.countP (fun f => f.dataroomId == id) = 0 :=
      List.countP_eq_zero.mpr (by intro a ha; simpa using h2 a ha)
    have hff : db.files.filter (fun f => f.dataroomId != id) = db.files :=
      List.filter_eq_self.mpr (by intro a ha; simpa using h3 a ha)
    have hffo : db.folders.filter (fun f => f.dataroomId != id) = db.folders :=
      List.filter_eq_self.mpr (by intro a ha; simpa using h2 a ha)
    have hdr : db.datarooms.filter (fun d => d.id != id) = db.datarooms :=
      List.filter_eq_self.mpr (by intro a ha; simpa using h1 a ha)
    unfold DataroomService.delete
    simp [FileRepo.listByDataroom, hfiles, Bind.bind, M.bind, Pure.pure,
      M.pure, FileRepo.deleteByDataroom, FolderRepo.deleteByDataroom,
      DataroomRepo.delete, hcf, hcfo, hff, hffo, hdr]
  · intro db2
    unfold DataroomService.delete BlobRepo.deleteMany
    by_cases hlen :
        0 < (db2.files.filter (fun f => f.dataroomId == id)).length
    · obtain ⟨m, db3, hm⟩ := blobDeleteMany_aux_ok
        ((db2.files.filter (fun f => f.dataroomId == id)).map
          (fun file => file.blobKey)) 0 db2
      simp only [Bind.bind, M.bind, Pure.pure, M.pure] at hm
      simp [FileRepo.listByDataroom, Bind.bind, M.bind, hlen, hm, Pure.pure,
        M.pure, FileRepo.deleteByDataroom, FolderRepo.deleteByDataroom,
        DataroomRepo.delete]
    · simp [FileRepo.listByDataroom, Bind.bind, M.bind, hlen, Pure.pure,
        M.pure, FileRepo.deleteByDataroom, FolderRepo.deleteByDataroom,
        DataroomRepo.delete]

/-- C9 witness: deleting the unknown room id 9 from the concrete store
`dbW` returns zero counts and leaves the store unchanged. -/
theorem dataroomDelete_noop_on_unknown_id_witness :
    (∀ d ∈ dbW.datarooms, d.id ≠ 9) ∧
    DataroomService.delete 9 dbW =
      (.ok { folders := 0, files := 0, blobs := 0 }, dbW) :=
  ⟨by decide,
    (dataroomDelete_noop_on_unknown_id 9 dbW (by decide) (by decide)
      (by decide)).1⟩

/-! ## C7: exact characterization of `validateName` -/

set_option maxRecDepth 4000 in
/-- C7 counterexample: the claim's length clause, read on the name as
given, is wrong — `overLongPadded` has 256 characters (so the claim
demands a `NameValidationError`) yet `validateName` accepts it, because
the code measures the trimmed name (250 characters here). -/
theorem validateName_length_clause_counterexample :
    validateRejectsSpec overLongPadded .folder = true ∧
    validateName overLongPadded .folder = .ok () ∧
    255 < overLongPadded.length := by
  decide

/-- C7 (amended): `validateName(name, kind)` throws `NameValidationError`
exactly when the claim's disjunction holds with the length clause measured
on the trimmed name: empty or whitespace-only; trimmed length over 255; a
forbidden character; a reserved device name (whole trimmed name for
folders, base before the final dot for files, case-insensitively); or, for
files, an empty base or a non-empty extension other than `.pdf`. -/
theorem validateName_ok_iff (name : JSStr) (kind : NameKind) :
    validateName name kind = .ok () ↔
    validateRejectsAmended name kind = false := by
  unfold validateName validateRejectsAmended
  rcases kind <;> split_ifs <;> simp_all [List.length_eq_zero] <;>
    (try split_ifs <;> simp_all)

/-! ## C6: upload/download round-trip -/

/-- `FileService.delete` never raises the id counter and only removes or
keeps records: the remaining file records and blobs all existed before. -/
theorem fileDelete_shrinks (id : Nat) (db : DB) :
    (FileService.delete id db).2.nextId = db.nextId ∧
    (∀ x ∈ (FileService.delete id db).2.files, x ∈ db.files) ∧
    (∀ b ∈ (FileService.delete id db).2.blobs, b ∈ db.blobs) := by
  unfold FileService.delete FileRepo.getRequired FileRepo.get BlobRepo.delete
    FileRepo.delete DataroomRepo.touch dateNow
  rcases hfind : db.files.find? (fun f => f.id == id) with _ | file
  · simp [Bind.bind, M.bind, M.throw, Pure.pure, M.pure, hfind]
  · simp only [Bind.bind, M.bind, Pure.pure, M.pure, hfind]
    refine ⟨trivial, ?_, ?_⟩
    · intro x hx
      exact (List.mem_filter.mp hx).1
    · intro b hb
      exact (List.mem_filter.mp hb).1

/-- A run of a read-only computation (one whose final state always equals
its input state) ends in its input state. -/
theorem state_of_run {α : Type} {x : M α} (hro : ∀ s, (x s).2 = s)
    {db db' : DB} {b : α} (h : x db = (.ok b, db')) : db' = db := by
  have h2 := hro db
  rw [h] at h2
  exact h2

/-- `DataroomRepo.getRequired` never writes. -/
theorem readonly_getRequiredD (id : Nat) :
    ∀ s, (DataroomRepo.getRequired id s).2 = s := by
  intro s
  unfold DataroomRepo.getRequired DataroomRepo.get
  rcases hf : s.datarooms.find? (fun d => d.id == id) with _ | d <;>
    simp [Bind.bind, M.bind, hf, M.throw, Pure.pure, M.pure]

/-- `FolderRepo.getRequired` never writes. -/
theorem readonly_getRequiredF (id : Nat) :
    ∀ s, (FolderRepo.getRequired id s).2 = s := by
  intro s
  unfold FolderRepo.getRequired FolderRepo.get
  rcases hf : s.folders.find? (fun d => d.id == id) with _ | d <;>
    simp [Bind.bind, M.bind, hf, M.throw, Pure.pure, M.pure]

/-- Running the write phase of `upload` (fresh blob key, blob put, fresh
file id, record insert, room touch) from any store whose file ids and blob
keys are below the id counter produces a store in which `downloadBlob` on
the new id returns exactly the uploaded bytes and the final name. -/
theorem uploadTail_download (file : JSFile) (dataroomId : Nat)
    (parentId : Option Nat) (finalName : JSStr) (f : FileObject)
    (db1 db2 : DB)
    (hids1 : ∀ x ∈ db1.files, x.id < db1.nextId)
    (hkeys1 : ∀ b ∈ db1.blobs, b.key < db1.nextId)
    (h : (do
        let blobKey ← generateId
        let _ ← BlobRepo.put blobKey file.bytes
        let now ← dateNow
        let id ← generateId
        let fileObject : FileObject :=
          { id := id, dataroomId := dataroomId, parentId := parentId,
            name := finalName, mimeType := file.type, size := file.size,
            blobKey := blobKey, createdAt := now, updatedAt := now }
        let _ ← FileRepo.insert fileObject
        let _ ← DataroomRepo.touch dataroomId
        pure fileObject : M FileObject) db1 = (.ok f, db2)) :
    FileService.downloadBlob f.id db2 =
      (.ok (some { blob := file.bytes, filename := f.name }), db2) := by
  have hput : db1.blobs.any (fun b => b.key == db1.nextId) = false := by
    rw [List.any_eq_false]
    intro b hb
    have := hkeys1 b hb
    simp
    omega
  have hins : db1.files.any (fun x => x.id == db1.nextId + 1) = false := by
    rw [List.any_eq_false]
    intro x hx
    have := hids1 x hx
    simp
    omega
  simp only [Bind.bind, M.bind, Pure.pure, M.pure, generateId, BlobRepo.put,
    dateNow, FileRepo.insert, DataroomRepo.touch, hput, hins] at h
  simp at h
  rw [if_neg (show ¬ ∃ x ∈ db1.files, x.id = db1.nextId + 1 by
    rintro ⟨x, hx, he⟩
    have := hids1 x hx
    omega)] at h
  simp at h
  obtain ⟨hf, hdb2⟩ := h
  subst hdb2
  have hfind1 : db1.files.find? (fun x => x.id == db1.nextId + 1) = none := by
    rw [List.find?_eq_none]
    intro x hx
    have := hids1 x hx
    simp
    omega
  have hfind2 : db1.blobs.find? (fun b => b.key == db1.nextId) = none := by
    rw [List.find?_eq_none]
    intro b hb
    have := hkeys1 b hb
    simp
    omega
  subst hf
  simp [FileService.downloadBlob, FileRepo.get, BlobRepo.get, Bind.bind,
    M.bind, Pure.pure, M.pure, List.find?_append, hfind1, hfind2]

/-- Same as `uploadTail_download`, starting from the collision-resolution
phase of `upload` (any collision action, including a replace that first
deletes the colliding record). -/
theorem uploadAfterParent_download (file : JSFile) (dataroomId : Nat)
    (parentId : Option Nat) (action : NameCollisionAction)
    (f : FileObject) (db db2 : DB)
    (hids : ∀ x ∈ db.files, x.id < db.nextId)
    (hkeys : ∀ b ∈ db.blobs, b.key < db.nextId)
    (h : (do
        let nameExists ← FileRepo.nameExistsInParent (normalizeName file.name)
          parentId dataroomId none
        let finalName ←
          if nameExists then
            match action with
            | .cancel => M.throw .alreadyExists
            | .replace => do
              let existingFiles ← FileRepo.listByParent parentId dataroomId
              let _ ← match existingFiles.find? (fun f =>
                  f.name == normalizeName file.name) with
                | some existingFile => FileService.delete existingFile.id
                | none => pure ()
              pure (normalizeName file.name)
            | .keepBoth => do
              let siblings ← FileRepo.listByParent parentId dataroomId
              pure (generateUniqueName (normalizeName file.name)
                (siblings.map (fun f => f.name)))
          else pure (normalizeName file.name)
        let blobKey ← generateId
        let _ ← BlobRepo.put blobKey file.bytes
        let now ← dateNow
        let id ← generateId
        let fileObject : FileObject :=
          { id := id, dataroomId := dataroomId, parentId := parentId,
            name := finalName, mimeType := file.type, size := file.size,
            blobKey := blobKey, createdAt := now, updatedAt := now }
        let _ ← FileRepo.insert fileObject
        let _ ← DataroomRepo.touch dataroomId
        pure fileObject : M FileObject) db = (.ok f, db2)) :
    FileService.downloadBlob f.id db2 =
      (.ok (some { blob := file.bytes, filename := f.name }), db2) := by
  obtain ⟨bEx, dbD, h1, h⟩ := M.bind_inv h
  rw [state_of_run (fun s => rfl) h1] at h
  clear h1
  rcases bEx with _ | _
  · simp only [Bool.false_eq_true, if_false] at h
    obtain ⟨y, dbE, h1, h⟩ := M.bind_inv h
    rw [state_of_run (fun s => rfl) h1] at h
    exact uploadTail_download file dataroomId parentId y f db db2
      hids hkeys h
  · simp only [eq_self_iff_true, if_true] at h
    rcases action with _ | _ | _
    · -- replace
      obtain ⟨existingFiles, dbE, h1, h⟩ := M.bind_inv h
      rw [state_of_run (fun s => rfl) h1] at h
      clear h1
      rcases hf2 : existingFiles.find? (fun x =>
          x.name == normalizeName file.name) with _ | ef
      · rw [hf2] at h
        obtain ⟨u2, dbF, h1, h⟩ := M.bind_inv h
        rw [state_of_run (fun s => rfl) h1] at h
        clear h1
        obtain ⟨y, dbG, h1, h⟩ := M.bind_inv h
        rw [state_of_run (fun s => rfl) h1] at h
        exact uploadTail_download file dataroomId parentId y f db db2
          hids hkeys h
      · rw [hf2] at h
        obtain ⟨u2, dbF, h1, h⟩ := M.bind_inv h
        have hsh := fileDelete_shrinks ef.id db
        rw [h1] at hsh
        simp only at hsh
        have hids1 : ∀ x ∈ dbF.files, x.id < dbF.nextId := by
          intro x hx
          rw [hsh.1]
          exact hids x (hsh.2.1 x hx)
        have hkeys1 : ∀ b ∈ dbF.blobs, b.key < dbF.nextId := by
          intro b hb
          rw [hsh.1]
          exact hkeys b (hsh.2.2 b hb)
        clear h1
        obtain ⟨y, dbG, h1, h⟩ := M.bind_inv h
        rw [state_of_run (fun s => rfl) h1] at h
        exact uploadTail_download file dataroomId parentId y f dbF db2
          hids1 hkeys1 h
    · -- keep-both
      obtain ⟨siblings, dbE, h1, h⟩ := M.bind_inv h
      rw [state_of_run (fun s => rfl) h1] at h
      clear h1
      obtain ⟨y, dbG, h1, h⟩ := M.bind_inv h
      rw [state_of_run (fun s => rfl) h1] at h
      exact uploadTail_download file dataroomId parentId y f db db2
        hids hkeys h
    · -- cancel
      obtain ⟨y, dbE, h1, h⟩ := M.bind_inv h
      simp [M.throw] at h1

/-- C6: for every byte payload uploaded successfully as a PDF (into an
existing room and folder, under any collision action), immediately calling
`FileService.downloadBlob` on the returned file's id yields exactly the
uploaded bytes together with the created record's final (possibly
collision-adjusted) name; the id-counter bounds on file ids and blob keys
hold in every reachable store. -/
theorem upload_download_roundtrip
    (file : JSFile) (dataroomId : Nat) (parentId : Option Nat)
    (action : NameCollisionAction) (db : DB) (f : FileObject) (db2 : DB)
    (hids : ∀ x ∈ db.files, x.id < db.nextId)
    (hkeys : ∀ b ∈ db.blobs, b.key < db.nextId)
    (h : FileService.upload file dataroomId parentId action db = (.ok f, db2)) :
    FileService.downloadBlob f.id db2 =
      (.ok (some { blob := file.bytes, filename := f.name }), db2) := by
  unfold FileService.upload at h
  by_cases ht : file.type = "application/pdf".data
  case neg => simp [ht, M.throw] at h
  rw [if_neg (by simpa using ht)] at h
  by_cases hs : maxSizeBytes < file.size
  case pos => simp [ht, hs, M.throw] at h
  rw [if_neg hs] at h
  obtain ⟨u0, dbA, h1, h⟩ := M.bind_inv h
  rw [state_of_run (fun s => rfl) h1] at h
  clear h1
  obtain ⟨d0, dbB, h1, h⟩ := M.bind_inv h
  rw [state_of_run (readonly_getRequiredD dataroomId) h1] at h
  clear h1
  rcases parentId with _ | p
  · obtain ⟨u1, dbC, h1, h⟩ := M.bind_inv h
    rw [state_of_run (fun s => rfl) h1] at h
    exact uploadAfterParent_download file dataroomId none action f db db2
      hids hkeys h
  · obtain ⟨u1, dbC, h1, h⟩ := M.bind_inv h
    rw [state_of_run (readonly_getRequiredF p) h1] at h
    clear h1
    obtain ⟨u2, dbD, h1, h⟩ := M.bind_inv h
    rw [state_of_run (fun s => rfl) h1] at h
    exact uploadAfterParent_download file dataroomId (some p) action f db db2
      hids hkeys h

/-- C6 witness: uploading `goodFile` into folder 1 of the concrete store
`dbW` creates `uploadedFileW`, and downloading it returns the uploaded
bytes `[9, 9]` under the name `q1.pdf`. -/
theorem upload_download_roundtrip_witness :
    (∀ x ∈ dbW.files, x.id < dbW.nextId) ∧
    (∀ b ∈ dbW.blobs, b.key < dbW.nextId) ∧
    FileService.upload goodFile 0 (some 1) .keepBoth dbW =
      (.ok uploadedFileW, dbW2) ∧
    FileService.downloadBlob uploadedFileW.id dbW2 =
      (.ok (some { blob := goodFile.bytes, filename := uploadedFileW.name }),
        dbW2) :=
  ⟨by decide, by decide, by decide,
    upload_download_roundtrip goodFile 0 (some 1) .keepBoth dbW uploadedFileW
      dbW2 (by decide) (by decide) (by decide)⟩

/-! ## C4: keep-both generates the minimal free suffix -/

/-- Decimal digit characters decode to their value. -/
theorem digitChar_toNat_sub (d : Nat) (h : d < 10) :
    (Nat.digitChar d).toNat - 48 = d := by
  interval_cases d <;> decide

/-- `charsVal` peels the last digit. -/
theorem charsVal_append_singleton (l : JSStr) (c : Char) :
    charsVal (l ++ [c]) = 10 * charsVal l + (c.toNat - 48) := by
  unfold charsVal
  rw [List.foldl_append]
  rfl

/-- `charsVal` decodes `natToCharsAux` when the fuel covers the digits. -/
theorem charsVal_natToCharsAux (fuel : Nat) :
    ∀ n, n < 10 ^ (fuel + 1) → charsVal (natToCharsAux fuel n) = n := by
  induction fuel with
  | zero =>
    intro n h
    have h10 : n < 10 := by simpa using h
    simp [natToCharsAux, charsVal, digitChar_toNat_sub n h10]
  | succ fuel ih =>
    intro n h
    by_cases h10 : n < 10
    · simp [natToCharsAux, h10, charsVal, digitChar_toNat_sub n h10]
    · rw [natToCharsAux, if_neg h10, charsVal_append_singleton,
        digitChar_toNat_sub _ (Nat.mod_lt _ (by omega)), ih]
      · omega
      · have h2 : (10 : Nat) ^ (fuel + 1 + 1) = 10 ^ (fuel + 1) * 10 :=
          pow_succ 10 (fuel + 1)
        exact Nat.div_lt_of_lt_mul (by omega)

/-- `charsVal` is a left inverse of `natToChars`. -/
theorem charsVal_natToChars (n : Nat) : charsVal (natToChars n) = n := by
  refine charsVal_natToCharsAux n n ?_
  calc n < 10 ^ n := Nat.lt_pow_self (by norm_num) n
  _ ≤ 10 ^ (n + 1) := Nat.pow_le_pow_right (by norm_num) (Nat.le_succ n)

/-- Distinct counters print as distinct digit strings. -/
theorem natToChars_inj {m n : Nat} (h : natToChars m = natToChars n) :
    m = n := by
  have h2 := congrArg charsVal h
  simpa [charsVal_natToChars] using h2

/-- Distinct counters produce distinct candidate names. -/
theorem candidateName_inj (base ext : JSStr) :
    Function.Injective (candidateName base ext) := by
  intro i j h
  unfold candidateName at h
  have h1 : (base ++ " (".data) ++ (natToChars i ++ (")".data ++ ext)) =
      (base ++ " (".data) ++ (natToChars j ++ (")".data ++ ext)) := by
    simpa [List.append_assoc] using h
  exact natToChars_inj
    (List.append_cancel_right (List.append_cancel_left h1))

/-- The suffix-search loop lands exactly on the least free counter
whenever the fuel covers the distance to it. -/
theorem genLoop_eq (base ext : JSStr) (S : List JSStr) (k : Nat) :
    ∀ (fuel i : Nat), i ≤ k →
    (∀ m, i ≤ m → m < k → candidateName base ext m ∈ S) →
    candidateName base ext k ∉ S →
    k - i ≤ fuel →
    genLoop base ext S i fuel = candidateName base ext k := by
  intro fuel
  induction fuel with
  | zero =>
    intro i hik _ _ hfuel
    have hi : i = k := by omega
    subst hi
    rfl
  | succ fuel ih =>
    intro i hik hbusy hfree hfuel
    by_cases hi : candidateName base ext i ∈ S
    · have hik2 : i < k := by
        rcases Nat.lt_or_ge i k with h | h
        · exact h
        · have : i = k := by omega
          subst this
          exact absurd hi hfree
      have := ih (i + 1) (by omega)
        (fun m hm1 hm2 => hbusy m (by omega) hm2) hfree (by omega)
      simpa [genLoop, hi] using this
    · have hik2 : i = k := by
        by_contra hne
        exact hi (hbusy i le_rfl (by omega))
      subst hik2
      simp [genLoop, hi]

/-- A duplicate-free list included in `S` is no longer than `S`. -/
theorem length_le_of_nodup_subset {α : Type} [DecidableEq α]
    {l S : List α} (hn : l.Nodup) (hs : ∀ x ∈ l, x ∈ S) :
    l.length ≤ S.length := by
  calc l.length = l.toFinset.card := (List.toFinset_card_of_nodup hn).symm
  _ ≤ S.toFinset.card := Finset.card_le_card (fun x hx => by
      rw [List.mem_toFinset] at hx ⊢
      exact hs x hx)
  _ ≤ S.length := List.toFinset_card_le S

/-- C4: for every colliding name `n` (with `(base, ext) = splitName n`)
and sibling-name set `S`, if `base (1)ext` through `base (k-1)ext` are all
taken but `base (k)ext` is free, `generateUniqueName` returns exactly
`base (k)ext` — never skipping ahead — and in particular the returned name
is not a member of `S`. -/
theorem generateUniqueName_minimal_suffix (n : JSStr) (S : List JSStr)
    (k : Nat) (hn : n ∈ S) (hk : 1 ≤ k)
    (hbusy : ∀ m, 1 ≤ m → m < k →
      candidateName (splitName n).1 (splitName n).2 m ∈ S)
    (hfree : candidateName (splitName n).1 (splitName n).2 k ∉ S) :
    generateUniqueName n S =
      candidateName (splitName n).1 (splitName n).2 k ∧
    generateUniqueName n S ∉ S := by
  have hmain : generateUniqueName n S =
      candidateName (splitName n).1 (splitName n).2 k := by
    have hsub : ∀ x ∈ (List.range' 1 (k - 1)).map
        (candidateName (splitName n).1 (splitName n).2), x ∈ S := by
      intro x hx
      rcases List.mem_map.mp hx with ⟨m, hm, rfl⟩
      rcases List.mem_range'.mp hm with ⟨i, hi, rfl⟩
      exact hbusy (1 + 1 * i) (by omega) (by omega)
    have hnd : ((List.range' 1 (k - 1)).map
        (candidateName (splitName n).1 (splitName n).2)).Nodup :=
      (List.nodup_range' 1 (k - 1)).map
        (candidateName_inj (splitName n).1 (splitName n).2)
    have hlen := length_le_of_nodup_subset hnd hsub
    rw [List.length_map, List.length_range'] at hlen
    simp only [generateUniqueName, if_pos hn]
    exact genLoop_eq _ _ _ k (S.length + 1) 1 hk
      (fun m hm1 hm2 => hbusy m hm1 hm2) hfree (by omega)
  exact ⟨hmain, by rw [hmain]; exact hfree⟩

/-- C4 witness: with `S` containing `a.pdf` and `a (1).pdf`, uploading the
name `a.pdf` with keep-both yields `a (2).pdf`. -/
theorem generateUniqueName_minimal_suffix_witness :
    ("a.pdf".data ∈ ["a.pdf".data, "a (1).pdf".data]) ∧
    (∀ m, 1 ≤ m → m < 2 →
      candidateName (splitName "a.pdf".data).1 (splitName "a.pdf".data).2 m ∈
        ["a.pdf".data, "a (1).pdf".data]) ∧
    (candidateName (splitName "a.pdf".data).1 (splitName "a.pdf".data).2 2 ∉
      ["a.pdf".data, "a (1).pdf".data]) ∧
    generateUniqueName "a.pdf".data ["a.pdf".data, "a (1).pdf".data] =
      "a (2).pdf".data := by
  have hbusy : ∀ m, 1 ≤ m → m < 2 →
      candidateName (splitName "a.pdf".data).1 (splitName "a.pdf".data).2 m ∈
        ["a.pdf".data, "a (1).pdf".data] := by
    intro m h1 h2
    have hm : m = 1 := by omega
    subst hm
    decide
  refine ⟨by decide, hbusy, by decide, ?_⟩
  have h := (generateUniqueName_minimal_suffix "a.pdf".data
    ["a.pdf".data, "a (1).pdf".data] 2 (by decide) (by omega) hbusy
    (by decide)).1
  exact h.trans (by decide)

/-! ## C3: cascade delete of a folder -/

/-- With duplicate-free ids, looking a member's id up finds that member. -/
theorem find?_eq_of_mem_nodup {l : List FileObject}
    (hnd : (l.map FileObject.id).Nodup) {x : FileObject} (hx : x ∈ l) :
    l.find? (fun y => y.id == x.id) = some x := by
  induction l with
  | nil => cases hx
  | cons a l ih =>
    rw [List.map_cons, List.nodup_cons] at hnd
    rcases List.mem_cons.mp hx with rfl | hx2
    · simp [List.find?_cons]
    · have hne : (a.id == x.id) = false := by
        simp only [beq_eq_false_iff_ne, ne_eq]
        intro he
        exact hnd.1 (he ▸ List.mem_map_of_mem FileObject.id hx2)
      rw [List.find?_cons, hne]
      exact ih hnd.2 hx2

/-- Explicit run of `FileService.delete` on a present file: its blob and
its record are removed and the owning room is touched. -/
theorem fileDelete_run {db : DB} {fi : FileObject}
    (hnd : (db.files.map FileObject.id).Nodup) (hfi : fi ∈ db.files) :
    FileService.delete fi.id db = (.ok (),
      { db with
        datarooms := db.datarooms.map (fun d =>
          if d.id == fi.dataroomId then { d with updatedAt := db.clock }
          else d),
        blobs := db.blobs.filter (fun b => b.key != fi.blobKey),
        files := db.files.filter (fun x => x.id != fi.id),
        clock := db.clock + 1 }) := by
  have hfind : db.files.find? (fun y => y.id == fi.id) = some fi :=
    find?_eq_of_mem_nodup hnd hfi
  unfold FileService.delete FileRepo.getRequired FileRepo.get BlobRepo.delete
    FileRepo.delete DataroomRepo.touch dateNow
  simp [Bind.bind, M.bind, Pure.pure, M.pure, hfind]

/-- Explicit run of one step of the file-deletion loop. -/
theorem run_deleteFileStep {db : DB} {fi : FileObject} (n : Nat)
    (hnd : (db.files.map FileObject.id).Nodup) (hfi : fi ∈ db.files) :
    deleteFileStep n fi db = (.ok (n + 1),
      { db with
        datarooms := db.datarooms.map (fun d =>
          if d.id == fi.dataroomId then { d with updatedAt := db.clock }
          else d),
        blobs := db.blobs.filter (fun b => b.key != fi.blobKey),
        files := db.files.filter (fun x => x.id != fi.id),
        clock := db.clock + 1 }) := by
  unfold deleteFileStep
  rw [M.run_bind, fileDelete_run hnd hfi]
  rfl

/-- Explicit run of one step of the folder-deletion loop. -/
theorem run_deleteFolderStep (n folderId : Nat) (db : DB) :
    deleteFolderStep n folderId db = (.ok (n + 1),
      { db with folders := db.folders.filter (fun f => f.id != folderId) }) :=
  rfl

/-- Associativity of sequencing in the computation monad. -/
theorem M.bind_assoc2 {α β γ : Type} (x : M α) (f : α → M β) (g : β → M γ) :
    (x >>= f) >>= g = x >>= fun a => f a >>= g := by
  funext db
  simp only [Bind.bind, M.bind]
  rcases hx : x db with ⟨r, db1⟩
  cases r <;> rfl

/-- A monadic fold over a concatenation runs the two parts in order. -/
theorem M.foldlM_append2 {α β : Type} (f : β → α → M β) :
    ∀ (l1 l2 : List α) (b : β),
      List.foldlM f b (l1 ++ l2) =
        (List.foldlM f b l1 >>= fun m => List.foldlM f m l2) := by
  intro l1
  induction l1 with
  | nil =>
    intro l2 b
    rw [List.nil_append, List.foldlM_nil]
    rfl
  | cons a l1 ih =>
    intro l2 b
    rw [List.cons_append, List.foldlM_cons, List.foldlM_cons, M.bind_assoc2]
    simp only [ih]

/-- A nested monadic fold is a single fold over the flattened batches. -/
theorem foldlM_flatMap {α β γ : Type} (step : γ → β → M γ) (g : α → List β) :
    ∀ (L : List α) (n : γ),
      List.foldlM (fun acc a => List.foldlM step acc (g a)) n L =
      List.foldlM step n (L.flatMap g) := by
  intro L
  induction L with
  | nil => intro n; rfl
  | cons a L ih =>
    intro n
    rw [List.foldlM_cons, List.flatMap_cons, M.foldlM_append2]
    simp only [ih]

/-- The folder-deletion loop removes exactly the listed ids and counts
them. -/
theorem deleteFoldersLoop (ids : List Nat) :
    ∀ (n : Nat) (db : DB),
      (List.foldlM deleteFolderStep n ids) db =
        (.ok (n + ids.length),
         { db with folders :=
             (db.folders.filter (fun f => decide (f.id ∉ ids))) }) := by
  induction ids with
  | nil =>
    intro n db
    simp [List.foldlM_nil, Pure.pure, M.pure]
  | cons a ids ih =>
    intro n db
    rw [List.foldlM_cons, M.run_bind, run_deleteFolderStep]
    refine Eq.trans (ih (n + 1)
      { db with folders := db.folders.filter (fun f => f.id != a) }) ?_
    rw [List.filter_filter]
    rw [show n + 1 + ids.length = n + (a :: ids).length from by
      simp only [List.length_cons]
      omega]
    congr 2
    refine List.filter_congr fun x _ => ?_
    rw [Bool.eq_iff_iff]
    simp [bne_iff_ne, List.mem_cons, not_or, and_comm]

/-- The file-deletion loop over distinct, present records removes exactly
those records and their blobs, counts them, and leaves folders alone. -/
theorem deleteFilesLoop (fs : List FileObject) :
    ∀ (n : Nat) (db : DB),
      (∀ x ∈ fs, x ∈ db.files) →
      ((db.files.map FileObject.id).Nodup) →
      ((fs.map FileObject.id).Nodup) →
      ∃ db2,
        (List.foldlM deleteFileStep n fs) db = (.ok (n + fs.length), db2) ∧
        db2.files = db.files.filter
          (fun x => decide (x.id ∉ fs.map FileObject.id)) ∧
        db2.blobs = db.blobs.filter
          (fun b => decide (b.key ∉ fs.map FileObject.blobKey)) ∧
        db2.folders = db.folders := by
  induction fs with
  | nil =>
    intro n db _ _ _
    refine ⟨db, ?_, by simp, by simp, rfl⟩
    simp [List.foldlM_nil, Pure.pure, M.pure]
  | cons fi fs ih =>
    intro n db hpres hndS hndB
    have hfi : fi ∈ db.files := hpres fi (List.mem_cons_self fi fs)
    have hstep := run_deleteFileStep n hndS hfi
    rw [List.map_cons, List.nodup_cons] at hndB
    have hndS1 : ((db.files.filter (fun x => x.id != fi.id)).map
        FileObject.id).Nodup :=
      hndS.sublist ((List.filter_sublist _).map FileObject.id)
    have hpres1 : ∀ x ∈ fs, x ∈ db.files.filter (fun x => x.id != fi.id) := by
      intro x hx
      rw [List.mem_filter]
      refine ⟨hpres x (List.mem_cons_of_mem _ hx), ?_⟩
      simp only [bne_iff_ne, ne_eq]
      intro he
      exact hndB.1 (he ▸ List.mem_map_of_mem FileObject.id hx)
    obtain ⟨db2, hrun, hfiles, hblobs, hfolders⟩ :=
      ih (n + 1)
        { db with
          datarooms := db.datarooms.map (fun d =>
            if d.id == fi.dataroomId then { d with updatedAt := db.clock }
            else d),
          blobs := db.blobs.filter (fun b => b.key != fi.blobKey),
          files := db.files.filter (fun x => x.id != fi.id),
          clock := db.clock + 1 }
        hpres1 hndS1 hndB.2
    refine ⟨db2, ?_, ?_, ?_, ?_⟩
    · rw [List.foldlM_cons, M.run_bind, hstep,
        show n + (fi :: fs).length = n + 1 + fs.length from by
          simp only [List.length_cons]
          omega]
      exact hrun
    · rw [hfiles]
      show (db.files.filter (fun x => x.id != fi.id)).filter
          (fun x => decide (x.id ∉ fs.map FileObject.id)) = _
      rw [List.filter_filter]
      refine List.filter_congr fun x _ => ?_
      rw [Bool.eq_iff_iff]
      simp [bne_iff_ne, List.mem_cons, not_or, and_comm]
    · rw [hblobs]
      show (db.blobs.filter (fun b => b.key != fi.blobKey)).filter
          (fun b => decide (b.key ∉ fs.map FileObject.blobKey)) = _
      rw [List.filter_filter]
      refine List.filter_congr fun b _ => ?_
      rw [Bool.eq_iff_iff]
      simp [bne_iff_ne, List.mem_cons, not_or, and_comm]
    · rw [hfolders]

/-- Counting a disjunction of mutually exclusive predicates adds up. -/
theorem length_filter_or_disjoint {α : Type} (p q : α → Bool) (l : List α)
    (h : ∀ x ∈ l, ¬(p x = true ∧ q x = true)) :
    (l.filter (fun x => p x || q x)).length =
      (l.filter p).length + (l.filter q).length := by
  induction l with
  | nil => rfl
  | cons a l ih =>
    have ha := h a (List.mem_cons_self a l)
    have hl := ih (fun x hx => h x (List.mem_cons_of_mem a hx))
    rcases hp : p a with _ | _ <;> rcases hq : q a with _ | _
    · simp [List.filter_cons, hp, hq, hl]
    · simp [List.filter_cons, hp, hq, hl]
      omega
    · simp [List.filter_cons, hp, hq, hl]
      omega
    · exact absurd ⟨hp, hq⟩ ha

/-- Batching duplicate-free records by distinct parent ids yields
duplicate-free ids overall (a record has a single parent). -/
theorem flatMap_batches_id_nodup (files : List FileObject)
    (hnd : (files.map FileObject.id).Nodup) :
    ∀ (affected : List Nat), affected.Nodup →
    ((affected.flatMap (fun fid =>
      files.filter (fun x => x.parentId == some fid))).map
        FileObject.id).Nodup := by
  intro affected
  induction affected with
  | nil => intro _; simp
  | cons a rest ih =>
    intro hna
    rw [List.nodup_cons] at hna
    rw [List.flatMap_cons, List.map_append, List.nodup_append]
    refine ⟨hnd.sublist ((List.filter_sublist _).map FileObject.id),
      ih hna.2, ?_⟩
    intro i hi hcontra
    rcases List.mem_map.mp hi with ⟨x, hx, rfl⟩
    rcases List.mem_map.mp hcontra with ⟨y, hy, hyx⟩
    rcases List.mem_flatMap.mp hy with ⟨b, hb, hyb⟩
    rw [List.mem_filter] at hx hyb
    have hxy : y = x :=
      List.inj_on_of_nodup_map hnd hyb.1 hx.1 hyx
    have hpa : x.parentId = some a := by simpa using hx.2
    have hpb : y.parentId = some b := by simpa using hyb.2
    rw [hxy, hpa] at hpb
    exact hna.1 (Option.some.inj hpb ▸ hb)

/-- Batching by distinct parent ids enumerates exactly the records whose
parent is one of the ids. -/
theorem length_flatMap_batches (files : List FileObject) :
    ∀ (affected : List Nat), affected.Nodup →
    (affected.flatMap (fun fid =>
      files.filter (fun x => x.parentId == some fid))).length =
    (files.filter (fun x =>
      decide (x.parentId ∈ affected.map some))).length := by
  intro affected
  induction affected with
  | nil => intro _; simp
  | cons a rest ih =>
    intro hna
    rw [List.nodup_cons] at hna
    rw [List.flatMap_cons, List.length_append, ih hna.2]
    rw [show (files.filter (fun x =>
        decide (x.parentId ∈ (a :: rest).map some))) =
      files.filter (fun x => (x.parentId == some a) ||
        decide (x.parentId ∈ rest.map some)) from
      List.filter_congr fun x _ => by
        rw [Bool.eq_iff_iff]
        simp [List.mem_cons]]
    rw [length_filter_or_disjoint]
    intro x _ hand
    rcases hand with ⟨h1, h2⟩
    rw [beq_iff_eq] at h1
    rw [decide_eq_true_eq, h1, List.mem_map] at h2
    rcases h2 with ⟨b, hb, hba⟩
    have : b = a := by injection hba
    exact hna.1 (this ▸ hb)

/-- C3: `FolderService.delete c` removes exactly the folder `c`, every
descendant folder of `c`, and every file whose parent is `c` or a
descendant; it returns the number of removed folders (the target plus its
descendants) and removed files, and afterwards no blob remains stored
under any removed file's former `blobKey`.  `A` abbreviates the affected
folder list; duplicate-free ids and room-consistent file parents hold in
every reachable store. -/
theorem folderDelete_cascade (c : Nat) (db : DB) (folder : Folder)
    (A : List Nat)
    (hfolder : db.folders.find? (fun f => f.id == c) = some folder)
    (hA : A = c :: getDescendantFolderIds c
      (db.folders.filter (fun f => f.dataroomId == folder.dataroomId)))
    (hndf : (db.files.map FileObject.id).Nodup)
    (hnda : A.Nodup)
    (hroom : ∀ x ∈ db.files, ∀ p, x.parentId = some p → p ∈ A →
      x.dataroomId = folder.dataroomId) :
    (FolderService.delete c db).1 = .ok
      { folders := A.length,
        files := (db.files.filter (fun x =>
          decide (x.parentId ∈ A.map some))).length } ∧
    (FolderService.delete c db).2.folders =
      db.folders.filter (fun f => decide (f.id ∉ A)) ∧
    (FolderService.delete c db).2.files =
      db.files.filter (fun x => decide (x.parentId ∉ A.map some)) ∧
    ∀ x ∈ db.files, x.parentId ∈ A.map some →
      ∀ b ∈ (FolderService.delete c db).2.blobs, b.key ≠ x.blobKey := by
  subst hA
  have hndAll : ((db.files.filter (fun x =>
      x.dataroomId == folder.dataroomId)).map FileObject.id).Nodup :=
    hndf.sublist ((List.filter_sublist _).map FileObject.id)
  have hFSsub : ∀ x ∈ (c :: getDescendantFolderIds c
      (db.folders.filter (fun f => f.dataroomId == folder.dataroomId))).flatMap
        (fun fid => (db.files.filter (fun x =>
          x.dataroomId == folder.dataroomId)).filter
          (fun x => x.parentId == some fid)), x ∈ db.files := by
    intro x hx
    rcases List.mem_flatMap.mp hx with ⟨fid, _, hxb⟩
    exact (List.mem_filter.mp (List.mem_filter.mp hxb).1).1
  have hFSnd := flatMap_batches_id_nodup
    (db.files.filter (fun x => x.dataroomId == folder.dataroomId)) hndAll
    (c :: getDescendantFolderIds c
      (db.folders.filter (fun f => f.dataroomId == folder.dataroomId))) hnda
  obtain ⟨db2, hrun2, hfiles2, hblobs2, hfolders2⟩ :=
    deleteFilesLoop _ 0 db hFSsub hndf hFSnd
  rw [← foldlM_flatMap] at hrun2
  have hfoldF := deleteFoldersLoop ((getDescendantFolderIds c
    (db.folders.filter (fun f =>
      f.dataroomId == folder.dataroomId))).reverse) 0 db2
  have hdel : FolderService.delete c db =
      (Except.ok (DeleteCounts.mk
        (0 + (getDescendantFolderIds c
          (db.folders.filter (fun f =>
            f.dataroomId == folder.dataroomId))).reverse.length + 1)
        (0 + ((c :: getDescendantFolderIds c
          (db.folders.filter (fun f =>
            f.dataroomId == folder.dataroomId))).flatMap (fun fid =>
          (db.files.filter (fun x =>
            x.dataroomId == folder.dataroomId)).filter (fun x =>
            x.parentId == some fid))).length)),
       DB.mk
         (db2.datarooms.map (fun d =>
           if d.id == folder.dataroomId then { d with updatedAt := db2.clock }
           else d))
         ((db2.folders.filter (fun f => decide (f.id ∉
           (getDescendantFolderIds c (db.folders.filter (fun f =>
             f.dataroomId == folder.dataroomId))).reverse))).filter
           (fun f => f.id != c))
         db2.files
         db2.blobs
         db2.nextId
         (db2.clock + 1)) := by
    unfold FolderService.delete
    rw [M.run_bind, show FolderRepo.getRequired c db = (.ok folder, db) from by
      unfold FolderRepo.getRequired FolderRepo.get
      simp [Bind.bind, M.bind, hfolder, Pure.pure, M.pure]]
    simp only []
    rw [M.run_bind, show FolderRepo.listByDataroom folder.dataroomId db =
      (.ok (db.folders.filter (fun f => f.dataroomId == folder.dataroomId)), db)
      from rfl]
    simp only []
    rw [M.run_bind, show FileRepo.listByDataroom folder.dataroomId db =
      (.ok (db.files.filter (fun f => f.dataroomId == folder.dataroomId)), db)
      from rfl]
    simp only []
    rw [show (fun acc file => do
        FileService.delete file.id
        pure (acc + 1) : Nat → FileObject → M Nat) = deleteFileStep from rfl]
    rw [M.run_bind, hrun2]
    simp only []
    rw [show (fun acc folderId => do
        FolderRepo.delete folderId
        pure (acc + 1) : Nat → Nat → M Nat) = deleteFolderStep from rfl]
    rw [M.run_bind, hfoldF]
    simp only []
    rfl
  have hmemFS : ∀ x ∈ db.files,
      x.parentId ∈ (c :: getDescendantFolderIds c
        (db.folders.filter (fun f =>
          f.dataroomId == folder.dataroomId))).map some →
      x ∈ (c :: getDescendantFolderIds c
        (db.folders.filter (fun f =>
          f.dataroomId == folder.dataroomId))).flatMap (fun fid =>
        (db.files.filter (fun x =>
          x.dataroomId == folder.dataroomId)).filter (fun x =>
          x.parentId == some fid)) := by
    intro x hx hp
    rcases List.mem_map.mp hp with ⟨p, hpA, hps⟩
    refine List.mem_flatMap.mpr ⟨p, hpA, ?_⟩
    rw [List.mem_filter, List.mem_filter]
    refine ⟨⟨hx, ?_⟩, ?_⟩
    · simp [hroom x hx p hps.symm hpA]
    · simp [hps.symm]
  have hidmem : ∀ x ∈ db.files,
      x.id ∈ ((c :: getDescendantFolderIds c
        (db.folders.filter (fun f =>
          f.dataroomId == folder.dataroomId))).flatMap (fun fid =>
        (db.files.filter (fun x =>
          x.dataroomId == folder.dataroomId)).filter (fun x =>
          x.parentId == some fid))).map FileObject.id →
      x.parentId ∈ (c :: getDescendantFolderIds c
        (db.folders.filter (fun f =>
          f.dataroomId == folder.dataroomId))).map some := by
    intro x hx hid
    rcases List.mem_map.mp hid with ⟨y, hy, hyid⟩
    rcases List.mem_flatMap.mp hy with ⟨fid, hfidA, hyb⟩
    rw [List.mem_filter] at hyb
    have hyf : y ∈ db.files := (List.mem_filter.mp hyb.1).1
    have hxy : y = x := List.inj_on_of_nodup_map hndf hyf hx hyid
    have hyp : y.parentId = some fid := by simpa using hyb.2
    rw [hxy] at hyp
    rw [hyp]
    exact List.mem_map_of_mem some hfidA
  refine ⟨?_, ?_, ?_, ?_⟩
  · rw [hdel]
    have hcnt := length_flatMap_batches
      (db.files.filter (fun x => x.dataroomId == folder.dataroomId))
      (c :: getDescendantFolderIds c
        (db.folders.filter (fun f => f.dataroomId == folder.dataroomId)))
      hnda
    rw [show ((db.files.filter (fun x =>
        x.dataroomId == folder.dataroomId)).filter (fun x =>
        decide (x.parentId ∈ (c :: getDescendantFolderIds c
          (db.folders.filter (fun f =>
            f.dataroomId == folder.dataroomId))).map some))) =
      (db.files.filter (fun x =>
        decide (x.parentId ∈ (c :: getDescendantFolderIds c
          (db.folders.filter (fun f =>
            f.dataroomId == folder.dataroomId))).map some))) from ?_] at hcnt
    · rw [← hcnt]
      simp [List.length_reverse]
    · rw [List.filter_filter]
      refine List.filter_congr fun x hx => ?_
      by_cases hp : x.parentId ∈ (c :: getDescendantFolderIds c
          (db.folders.filter (fun f =>
            f.dataroomId == folder.dataroomId))).map some
      · have hpd : x.dataroomId = folder.dataroomId := by
          rcases List.mem_map.mp hp with ⟨p, hpA, hps⟩
          exact hroom x hx p hps.symm hpA
        simp [hp, hpd]
      · simp [hp]
        intro hdisj
        rcases hdisj with h | ⟨a, ha, hax⟩
        · exact hroom x hx c h (List.mem_cons_self _ _)
        · exact hroom x hx a hax.symm (List.mem_cons_of_mem _ ha)
  · rw [hdel]
    show ((db2.folders.filter _).filter _) = _
    rw [hfolders2, List.filter_filter]
    refine List.filter_congr fun x _ => ?_
    rw [Bool.eq_iff_iff]
    simp [List.mem_cons, List.mem_reverse, not_or, and_comm, bne_iff_ne]
  · rw [hdel]
    show db2.files = _
    rw [hfiles2]
    refine List.filter_congr fun x hx => ?_
    rw [Bool.eq_iff_iff]
    simp only [decide_eq_true_eq]
    constructor
    · intro hnid hp
      exact hnid (List.mem_map_of_mem FileObject.id (hmemFS x hx hp))
    · intro hnp hid
      exact hnp (hidmem x hx hid)
  · intro x hx hp b hb
    rw [hdel] at hb
    have hb2 : b ∈ db2.blobs := hb
    rw [hblobs2, List.mem_filter] at hb2
    have hnotin := hb2.2
    rw [decide_eq_true_eq] at hnotin
    intro hke
    exact hnotin (hke ▸ List.mem_map_of_mem FileObject.blobKey (hmemFS x hx hp))


/-- C3 witness: scenario C on the concrete store `dbW` — deleting folder 1
(room, folder `A` 1, subfolder `B` 2, file `L` 4 in `B`) removes 2 folders
and 1 file, empties the folder and file tables, and leaves no blob under
the removed file's key. -/
theorem folderDelete_cascade_witness :
    (dbW.folders.find? (fun f => f.id == 1) =
      some { id := 1, dataroomId := 0, parentId := none, name := "A".data,
             createdAt := 0, updatedAt := 0 }) ∧
    (FolderService.delete 1 dbW).1 = .ok { folders := 2, files := 1 } ∧
    (FolderService.delete 1 dbW).2.folders = [] ∧
    (FolderService.delete 1 dbW).2.files = [] ∧
    (∀ x ∈ dbW.files, x.parentId ∈ [1, 2].map some →
      ∀ b ∈ (FolderService.delete 1 dbW).2.blobs, b.key ≠ x.blobKey) := by
  have H := folderDelete_cascade 1 dbW
    { id := 1, dataroomId := 0, parentId := none, name := "A".data,
      createdAt := 0, updatedAt := 0 }
    [1, 2] (by decide) (by decide) (by decide) (by decide)
    (by
      intro x hx p hp hmem
      have hx2 := hx
      simp only [dbW, List.mem_singleton] at hx2
      subst hx2
      rfl)
  exact ⟨by decide, H.1.trans (by decide), H.2.1.trans (by decide),
    H.2.2.1.trans (by decide), H.2.2.2⟩

end Spa

/-! ## C8: acyclicity of the folder tree in every reachable store

`FolderSafe` operations never insert a folder record and never lower the
id counter, so they preserve the invariant `Inv`; the only inserting
operation, `FolderService.create`, preserves `Inv` because the validated
parent already exists (hence its id is below the counter) and the new
folder receives the counter as its id.  `Inv` forces every stored parent
link to point strictly downward in id order, so the ancestor relation is
irreflexive. -/

namespace Spa

theorem FolderSafe.preserves {α : Type} {m : M α} (h : FolderSafe m)
    {db : DB} (hI : Inv db) : Inv (m db).2 := by
  intro f hf
  obtain ⟨g, hg, hid, hpar⟩ := (h db).2 f hf
  obtain ⟨hlt, hp⟩ := hI g hg
  refine ⟨?_, ?_⟩
  · rw [← hid]
    exact lt_of_lt_of_le hlt (h db).1
  · intro p hpeq
    rw [← hid]
    exact hp p (hpar.trans hpeq)

theorem folderSafe_of_eq {α : Type} {m : M α}
    (h : ∀ db, db.nextId ≤ (m db).2.nextId ∧ (m db).2.folders = db.folders) :
    FolderSafe m := by
  intro db
  refine ⟨(h db).1, fun f hf => ⟨f, ?_, rfl, rfl⟩⟩
  rw [← (h db).2]
  exact hf

theorem folderSafe_of_subset {α : Type} {m : M α}
    (h : ∀ db, db.nextId ≤ (m db).2.nextId ∧
      ∀ f ∈ (m db).2.folders, f ∈ db.folders) :
    FolderSafe m :=
  fun db => ⟨(h db).1, fun f hf => ⟨f, (h db).2 f hf, rfl, rfl⟩⟩

theorem folderSafe_pure {α : Type} (a : α) : FolderSafe (pure a : M α) :=
  folderSafe_of_eq (fun _ => ⟨le_rfl, rfl⟩)

theorem folderSafe_throw {α : Type} (e : Err) :
    FolderSafe (M.throw e : M α) :=
  folderSafe_of_eq (fun _ => ⟨le_rfl, rfl⟩)

theorem folderSafe_liftExcept {α : Type} (x : Except Err α) :
    FolderSafe (M.liftExcept x) :=
  folderSafe_of_eq (fun _ => ⟨le_rfl, rfl⟩)

theorem folderSafe_bind {α β : Type} {x : M α} {f : α → M β}
    (hx : FolderSafe x) (hf : ∀ a, FolderSafe (f a)) :
    FolderSafe (x >>= f) := by
  intro db
  rcases hxd : x db with ⟨r, db1⟩
  have h1 := hx db
  rw [hxd] at h1
  cases r with
  | error e =>
    simp only [Bind.bind, M.bind, hxd]
    exact h1
  | ok a =>
    have h2 := hf a db1
    simp only [Bind.bind, M.bind, hxd]
    refine ⟨le_trans h1.1 h2.1, fun g hg => ?_⟩
    obtain ⟨g1, hg1, hid1, hpar1⟩ := h2.2 g hg
    obtain ⟨g0, hg0, hid0, hpar0⟩ := h1.2 g1 hg1
    exact ⟨g0, hg0, hid0.trans hid1, hpar0.trans hpar1⟩

theorem folderSafe_ite {α : Type} (c : Prop) [Decidable c] {x y : M α}
    (hx : FolderSafe x) (hy : FolderSafe y) :
    FolderSafe (if c then x else y) := by
  split
  · exact hx
  · exact hy

theorem folderSafe_foldlM {α β : Type} {f : β → α → M β}
    (hf : ∀ b a, FolderSafe (f b a)) :
    ∀ (l : List α) (b : β), FolderSafe (List.foldlM f b l) := by
  intro l
  induction l with
  | nil => exact fun b => folderSafe_pure b
  | cons a l ih =>
    intro b
    rw [List.foldlM_cons]
    exact folderSafe_bind (hf b a) (fun b2 => ih b2)

theorem fs_generateId : FolderSafe generateId :=
  folderSafe_of_eq (fun db => ⟨Nat.le_succ _, rfl⟩)

theorem fs_dateNow : FolderSafe dateNow :=
  folderSafe_of_eq (fun _ => ⟨le_rfl, rfl⟩)

theorem fs_dr_insert (d : Dataroom) : FolderSafe (DataroomRepo.insert d) := by
  apply folderSafe_of_eq
  intro db
  unfold DataroomRepo.insert
  split
  · exact ⟨le_rfl, rfl⟩
  · exact ⟨le_rfl, rfl⟩

theorem fs_dr_get (id : Nat) : FolderSafe (DataroomRepo.get id) :=
  folderSafe_of_eq (fun _ => ⟨le_rfl, rfl⟩)

theorem fs_dr_getRequired (id : Nat) :
    FolderSafe (DataroomRepo.getRequired id) := by
  unfold DataroomRepo.getRequired
  apply folderSafe_bind (fs_dr_get id)
  intro o
  cases o with
  | none => exact folderSafe_throw _
  | some d => exact folderSafe_pure d

theorem fs_dr_list : FolderSafe DataroomRepo.list :=
  folderSafe_of_eq (fun _ => ⟨le_rfl, rfl⟩)

theorem fs_dr_updateName (id : Nat) (name : JSStr) :
    FolderSafe (DataroomRepo.updateName id name) := by
  unfold DataroomRepo.updateName
  apply folderSafe_bind fs_dateNow
  intro t
  exact folderSafe_of_eq (fun _ => ⟨le_rfl, rfl⟩)

theorem fs_dr_touch (id : Nat) : FolderSafe (DataroomRepo.touch id) := by
  unfold DataroomRepo.touch
  apply folderSafe_bind fs_dateNow
  intro t
  exact folderSafe_of_eq (fun _ => ⟨le_rfl, rfl⟩)

theorem fs_dr_delete (id : Nat) : FolderSafe (DataroomRepo.delete id) :=
  folderSafe_of_eq (fun _ => ⟨le_rfl, rfl⟩)

theorem fs_fo_get (id : Nat) : FolderSafe (FolderRepo.get id) :=
  folderSafe_of_eq (fun _ => ⟨le_rfl, rfl⟩)

theorem fs_fo_getRequired (id : Nat) :
    FolderSafe (FolderRepo.getRequired id) := by
  unfold FolderRepo.getRequired
  apply folderSafe_bind (fs_fo_get id)
  intro o
  cases o with
  | none => exact folderSafe_throw _
  | some f => exact folderSafe_pure f

theorem fs_fo_listByParent (p : Option Nat) (d : Nat) :
    FolderSafe (FolderRepo.listByParent p d) :=
  folderSafe_of_eq (fun _ => ⟨le_rfl, rfl⟩)

theorem fs_fo_listByDataroom (d : Nat) :
    FolderSafe (FolderRepo.listByDataroom d) :=
  folderSafe_of_eq (fun _ => ⟨le_rfl, rfl⟩)

theorem fs_fo_updateName (id : Nat) (name : JSStr) :
    FolderSafe (FolderRepo.updateName id name) := by
  unfold FolderRepo.updateName
  apply folderSafe_bind fs_dateNow
  intro t
  intro db
  refine ⟨le_rfl, fun f hf => ?_⟩
  rcases List.mem_map.mp hf with ⟨g, hg, rfl⟩
  refine ⟨g, hg, ?_, ?_⟩
  · by_cases h : (g.id == id) = true <;> simp [h]
  · by_cases h : (g.id == id) = true <;> simp [h]

theorem fs_fo_delete (id : Nat) : FolderSafe (FolderRepo.delete id) :=
  folderSafe_of_subset (fun db =>
    ⟨le_rfl, fun f hf => (List.mem_filter.mp hf).1⟩)

theorem fs_fo_nameExists (name : JSStr) (p : Option Nat) (d : Nat)
    (x : Option Nat) : FolderSafe (FolderRepo.nameExistsInParent name p d x) := by
  unfold FolderRepo.nameExistsInParent
  apply folderSafe_bind (fs_fo_listByParent p d)
  intro l
  exact folderSafe_pure _

theorem fs_fo_deleteByDataroom (d : Nat) :
    FolderSafe (FolderRepo.deleteByDataroom d) :=
  folderSafe_of_subset (fun db =>
    ⟨le_rfl, fun f hf => (List.mem_filter.mp hf).1⟩)

theorem fs_fi_insert (f : FileObject) : FolderSafe (FileRepo.insert f) := by
  apply folderSafe_of_eq
  intro db
  unfold FileRepo.insert
  split
  · exact ⟨le_rfl, rfl⟩
  · exact ⟨le_rfl, rfl⟩

theorem fs_fi_get (id : Nat) : FolderSafe (FileRepo.get id) :=
  folderSafe_of_eq (fun _ => ⟨le_rfl, rfl⟩)

theorem fs_fi_getRequired (id : Nat) :
    FolderSafe (FileRepo.getRequired id) := by
  unfold FileRepo.getRequired
  apply folderSafe_bind (fs_fi_get id)
  intro o
  cases o with
  | none => exact folderSafe_throw _
  | some f => exact folderSafe_pure f

theorem fs_fi_listByParent (p : Option Nat) (d : Nat) :
    FolderSafe (FileRepo.listByParent p d) :=
  folderSafe_of_eq (fun _ => ⟨le_rfl, rfl⟩)

theorem fs_fi_listByDataroom (d : Nat) :
    FolderSafe (FileRepo.listByDataroom d) :=
  folderSafe_of_eq (fun _ => ⟨le_rfl, rfl⟩)

theorem fs_fi_updateName (id : Nat) (name : JSStr) :
    FolderSafe (FileRepo.updateName id name) := by
  unfold FileRepo.updateName
  apply folderSafe_bind fs_dateNow
  intro t
  exact folderSafe_of_eq (fun _ => ⟨le_rfl, rfl⟩)

theorem fs_fi_delete (id : Nat) : FolderSafe (FileRepo.delete id) :=
  folderSafe_of_eq (fun _ => ⟨le_rfl, rfl⟩)

theorem fs_fi_nameExists (name : JSStr) (p : Option Nat) (d : Nat)
    (x : Option Nat) : FolderSafe (FileRepo.nameExistsInParent name p d x) := by
  unfold FileRepo.nameExistsInParent
  apply folderSafe_bind (fs_fi_listByParent p d)
  intro l
  exact folderSafe_pure _

theorem fs_fi_deleteByDataroom (d : Nat) :
    FolderSafe (FileRepo.deleteByDataroom d) :=
  folderSafe_of_eq (fun _ => ⟨le_rfl, rfl⟩)

theorem fs_bl_put (key : Nat) (data : List Nat) :
    FolderSafe (BlobRepo.put key data) := by
  apply folderSafe_of_eq
  intro db
  unfold BlobRepo.put
  split
  · exact ⟨le_rfl, rfl⟩
  · exact ⟨le_rfl, rfl⟩

theorem fs_bl_get (key : Nat) : FolderSafe (BlobRepo.get key) :=
  folderSafe_of_eq (fun _ => ⟨le_rfl, rfl⟩)

theorem fs_bl_exists (key : Nat) : FolderSafe (BlobRepo.exists key) :=
  folderSafe_of_eq (fun _ => ⟨le_rfl, rfl⟩)

theorem fs_bl_delete (key : Nat) : FolderSafe (BlobRepo.delete key) :=
  folderSafe_of_eq (fun _ => ⟨le_rfl, rfl⟩)

theorem fs_bl_deleteMany (keys : List Nat) :
    FolderSafe (BlobRepo.deleteMany keys) := by
  unfold BlobRepo.deleteMany
  apply folderSafe_foldlM
  intro b a
  apply folderSafe_bind (fs_bl_exists a)
  intro existed
  apply folderSafe_ite
  · exact folderSafe_bind (fs_bl_delete a) (fun _ => folderSafe_pure _)
  · exact folderSafe_pure _

theorem fs_bl_createBlobUrl (key : Nat) :
    FolderSafe (BlobRepo.createBlobUrl key) := by
  unfold BlobRepo.createBlobUrl
  apply folderSafe_bind (fs_bl_get key)
  intro o
  cases o with
  | none => exact folderSafe_pure _
  | some d => exact folderSafe_pure _

theorem fs_fileDelete (id : Nat) : FolderSafe (FileService.delete id) := by
  unfold FileService.delete
  apply folderSafe_bind (fs_fi_getRequired id)
  intro file
  apply folderSafe_bind (fs_bl_delete file.blobKey)
  intro u
  apply folderSafe_bind (fs_fi_delete id)
  intro u2
  apply folderSafe_bind (fs_dr_touch file.dataroomId)
  intro n
  exact folderSafe_pure _

theorem fs_fileGet (id : Nat) : FolderSafe (FileService.get id) :=
  fs_fi_getRequired id

theorem fs_fileUpload (file : JSFile) (dataroomId : Nat)
    (parentId : Option Nat) (action : NameCollisionAction) :
    FolderSafe (FileService.upload file dataroomId parentId action) := by
  unfold FileService.upload
  apply folderSafe_ite
  · exact folderSafe_throw _
  apply folderSafe_ite
  · exact folderSafe_throw _
  apply folderSafe_bind (folderSafe_liftExcept _)
  intro u
  apply folderSafe_bind (fs_dr_getRequired dataroomId)
  intro d
  lift_lets
  extract_lets jpA jpB jpC
  have hA : ∀ y, FolderSafe (jpA y) := by
    intro y
    unfold_let jpA
    apply folderSafe_bind fs_generateId
    intro blobKey
    apply folderSafe_bind (fs_bl_put _ _)
    intro k
    apply folderSafe_bind fs_dateNow
    intro now
    apply folderSafe_bind fs_generateId
    intro fid
    apply folderSafe_bind (fs_fi_insert _)
    intro k2
    apply folderSafe_bind (fs_dr_touch _)
    intro n
    exact folderSafe_pure _
  have hB : ∀ y, FolderSafe (jpB y) := by
    intro y
    unfold_let jpB
    exact folderSafe_bind (folderSafe_pure _) (fun z => hA z)
  have hC : ∀ y, FolderSafe (jpC y) := by
    intro y
    unfold_let jpC
    apply folderSafe_bind (fs_fi_nameExists _ _ _ _)
    intro nameExists
    apply folderSafe_ite
    · cases action with
      | cancel => exact folderSafe_bind (folderSafe_throw _) (fun z => hA z)
      | replace =>
        apply folderSafe_bind (fs_fi_listByParent _ _)
        intro existingFiles
        split
        · exact folderSafe_bind (fs_fileDelete _) (fun z => hB z)
        · exact folderSafe_bind (folderSafe_pure _) (fun z => hB z)
      | keepBoth =>
        apply folderSafe_bind (fs_fi_listByParent _ _)
        intro siblings
        exact folderSafe_bind (folderSafe_pure _) (fun z => hA z)
    · exact folderSafe_bind (folderSafe_pure _) (fun z => hA z)
  cases parentId with
  | none => exact folderSafe_bind (folderSafe_pure _) (fun y => hC y)
  | some p =>
    exact folderSafe_bind (fs_fo_getRequired p)
      (fun y => folderSafe_bind (folderSafe_pure _) (fun z => hC z))





theorem fs_fileRename (id : Nat) (name : JSStr)
    (action : NameCollisionAction) :
    FolderSafe (FileService.rename id name action) := by
  unfold FileService.rename
  apply folderSafe_bind (folderSafe_liftExcept _)
  intro u
  apply folderSafe_bind (fs_fi_getRequired id)
  intro file
  apply folderSafe_bind (fs_fi_nameExists _ _ _ _)
  intro nameExists
  lift_lets
  extract_lets jp
  have hjp : ∀ y, FolderSafe (jp y) := by
    intro y
    unfold_let jp
    apply folderSafe_bind (fs_fi_updateName _ _)
    intro n
    apply folderSafe_bind (fs_dr_touch _)
    intro n2
    exact fs_fileGet id
  apply folderSafe_ite
  · cases action with
    | cancel => exact folderSafe_bind (folderSafe_throw _) (fun y => hjp y)
    | replace =>
      apply folderSafe_bind (fs_fi_listByParent _ _)
      intro existingFiles
      split
      · exact folderSafe_bind (fs_fileDelete _)
          (fun y => folderSafe_bind (folderSafe_pure _) (fun z => hjp z))
      · exact folderSafe_bind (folderSafe_pure _)
          (fun y => folderSafe_bind (folderSafe_pure _) (fun z => hjp z))
    | keepBoth =>
      apply folderSafe_bind (fs_fi_listByParent _ _)
      intro siblings
      exact folderSafe_bind (folderSafe_pure _) (fun y => hjp y)
  · exact folderSafe_bind (folderSafe_pure _) (fun y => hjp y)

theorem fs_fileGetBlobUrl (id : Nat) : FolderSafe (FileService.getBlobUrl id) := by
  unfold FileService.getBlobUrl
  apply folderSafe_bind (fs_fi_get id)
  intro o
  cases o with
  | none => exact folderSafe_pure _
  | some file => exact fs_bl_createBlobUrl file.blobKey

theorem fs_fileDownloadBlob (id : Nat) :
    FolderSafe (FileService.downloadBlob id) := by
  unfold FileService.downloadBlob
  apply folderSafe_bind (fs_fi_get id)
  intro o
  cases o with
  | none => exact folderSafe_pure _
  | some file =>
    apply folderSafe_bind (fs_bl_get file.blobKey)
    intro b
    cases b with
    | none => exact folderSafe_pure _
    | some blob => exact folderSafe_pure _

theorem fs_fileMove (id : Nat) (newParentId : Nat) :
    FolderSafe (FileService.move id newParentId) := by
  unfold FileService.move
  apply folderSafe_bind (fs_fi_getRequired id)
  intro file
  apply folderSafe_bind (fs_fo_getRequired newParentId)
  intro g
  apply folderSafe_bind (fs_fi_nameExists _ _ _ _)
  intro nameExists
  apply folderSafe_ite
  · exact folderSafe_throw _
  apply folderSafe_bind (fs_fi_updateName id file.name)
  intro n
  apply folderSafe_bind (fs_dr_touch file.dataroomId)
  intro n2
  exact fs_fileGet id

theorem fs_folderGet (id : Nat) : FolderSafe (FolderService.get id) :=
  fs_fo_getRequired id

theorem fs_folderRename (id : Nat) (name : JSStr)
    (action : NameCollisionAction) :
    FolderSafe (FolderService.rename id name action) := by
  unfold FolderService.rename
  apply folderSafe_bind (folderSafe_liftExcept _)
  intro u
  apply folderSafe_bind (fs_fo_getRequired id)
  intro folder
  apply folderSafe_bind (fs_fo_nameExists _ _ _ _)
  intro nameExists
  lift_lets
  extract_lets jp
  have hjp : ∀ y, FolderSafe (jp y) := by
    intro y
    unfold_let jp
    apply folderSafe_bind (fs_fo_updateName _ _)
    intro n
    apply folderSafe_bind (fs_dr_touch _)
    intro n2
    exact fs_folderGet id
  apply folderSafe_ite
  · cases action with
    | cancel => exact folderSafe_bind (folderSafe_throw _) (fun y => hjp y)
    | replace => exact folderSafe_bind (folderSafe_throw _) (fun y => hjp y)
    | keepBoth =>
      apply folderSafe_bind (fs_fo_listByParent _ _)
      intro siblings
      exact folderSafe_bind (folderSafe_pure _) (fun y => hjp y)
  · exact folderSafe_bind (folderSafe_pure _) (fun y => hjp y)

theorem fs_folderDelete (id : Nat) : FolderSafe (FolderService.delete id) := by
  unfold FolderService.delete
  apply folderSafe_bind (fs_fo_getRequired id)
  intro folder
  apply folderSafe_bind (fs_fo_listByDataroom folder.dataroomId)
  intro allFolders
  apply folderSafe_bind (fs_fi_listByDataroom folder.dataroomId)
  intro allFiles
  apply folderSafe_bind
  · apply folderSafe_foldlM
    intro deletedFiles folderId
    apply folderSafe_foldlM
    intro acc file
    exact folderSafe_bind (fs_fileDelete file.id) (fun y => folderSafe_pure _)
  intro deletedFiles
  apply folderSafe_bind
  · apply folderSafe_foldlM
    intro deletedFolders folderId
    exact folderSafe_bind (fs_fo_delete folderId) (fun y => folderSafe_pure _)
  intro deletedFolders
  apply folderSafe_bind (fs_fo_delete id)
  intro u
  apply folderSafe_bind (fs_dr_touch folder.dataroomId)
  intro n
  exact folderSafe_pure _

theorem fs_folderMove (id : Nat) (newParentId : Option Nat) :
    FolderSafe (FolderService.move id newParentId) := by
  unfold FolderService.move
  apply folderSafe_bind (fs_fo_getRequired id)
  intro folder
  lift_lets
  extract_lets jp
  have hjp : ∀ y, FolderSafe (jp y) := by
    intro y
    unfold_let jp
    apply folderSafe_bind (fs_fo_nameExists _ _ _ _)
    intro nameExists
    apply folderSafe_ite
    · exact folderSafe_throw _
    apply folderSafe_bind (fs_fo_updateName _ _)
    intro n
    apply folderSafe_bind (fs_dr_touch _)
    intro n2
    exact fs_folderGet id
  cases newParentId with
  | none => exact folderSafe_bind (folderSafe_pure _) (fun y => hjp y)
  | some np =>
    apply folderSafe_bind (fs_fo_getRequired np)
    intro g
    apply folderSafe_bind (fs_fo_listByDataroom _)
    intro allFolders
    apply folderSafe_ite
    · exact folderSafe_bind (folderSafe_throw _) (fun y => hjp y)
    · exact folderSafe_bind (folderSafe_pure _) (fun y => hjp y)

theorem fs_dataroomCreate (name : JSStr) :
    FolderSafe (DataroomService.create name) := by
  unfold DataroomService.create
  apply folderSafe_bind (folderSafe_liftExcept _)
  intro u
  apply folderSafe_bind fs_dr_list
  intro existingDatarooms
  apply folderSafe_bind (folderSafe_liftExcept _)
  intro finalName
  apply folderSafe_bind fs_dateNow
  intro now
  apply folderSafe_bind fs_generateId
  intro id
  apply folderSafe_bind (fs_dr_insert _)
  intro k
  exact folderSafe_pure _

theorem fs_dataroomRename (id : Nat) (name : JSStr) :
    FolderSafe (DataroomService.rename id name) := by
  unfold DataroomService.rename
  apply folderSafe_bind (folderSafe_liftExcept _)
  intro u
  apply folderSafe_bind fs_dr_list
  intro existingDatarooms
  apply folderSafe_bind (folderSafe_liftExcept _)
  intro finalName
  apply folderSafe_bind (fs_dr_updateName id finalName)
  intro n
  exact fs_dr_getRequired id

theorem fs_dataroomDelete (id : Nat) :
    FolderSafe (DataroomService.delete id) := by
  unfold DataroomService.delete
  apply folderSafe_bind (fs_fi_listByDataroom id)
  intro files
  lift_lets
  extract_lets jp
  have hjp : ∀ y, FolderSafe (jp y) := by
    intro y
    unfold_let jp
    apply folderSafe_bind (fs_fi_deleteByDataroom id)
    intro deletedFiles
    apply folderSafe_bind (fs_fo_deleteByDataroom id)
    intro deletedFolders
    apply folderSafe_bind (fs_dr_delete id)
    intro u
    exact folderSafe_pure _
  apply folderSafe_ite
  · exact folderSafe_bind (fs_bl_deleteMany _) (fun y => hjp y)
  · exact folderSafe_bind (folderSafe_pure _) (fun y => hjp y)


theorem run_getRequiredD (id : Nat) (db : DB) :
    DataroomRepo.getRequired id db =
      ((match db.datarooms.find? (fun d => d.id == id) with
        | some d => Except.ok d
        | none => Except.error Err.notFound), db) := by
  unfold DataroomRepo.getRequired DataroomRepo.get
  rcases hf : db.datarooms.find? (fun d => d.id == id) with _ | d <;>
    simp [Bind.bind, M.bind, hf, M.throw, Pure.pure, M.pure]

theorem run_getRequiredFo (id : Nat) (db : DB) :
    FolderRepo.getRequired id db =
      ((match db.folders.find? (fun f => f.id == id) with
        | some f => Except.ok f
        | none => Except.error Err.notFound), db) := by
  unfold FolderRepo.getRequired FolderRepo.get
  rcases hf : db.folders.find? (fun f => f.id == id) with _ | f <;>
    simp [Bind.bind, M.bind, hf, M.throw, Pure.pure, M.pure]

theorem createTail_inv (dataroomId : Nat) (parentId : Option Nat)
    (finalName : JSStr) (db1 : DB) (hI : Inv db1)
    (hq : ∀ q, parentId = some q → q < db1.nextId) :
    Inv ((M.bind dateNow (fun now =>
      M.bind generateId (fun i =>
      M.bind (FolderRepo.insert
          (Folder.mk i dataroomId parentId finalName now now)) (fun u =>
      M.bind (DataroomRepo.touch dataroomId) (fun v =>
      M.pure (Folder.mk i dataroomId parentId finalName now now)))))) db1).2 := by
  have h1 : dateNow db1 = (.ok db1.clock,
      DB.mk db1.datarooms db1.folders db1.files db1.blobs db1.nextId
        (db1.clock + 1)) := rfl
  have h2 : generateId (DB.mk db1.datarooms db1.folders db1.files db1.blobs
        db1.nextId (db1.clock + 1)) = (.ok db1.nextId,
      DB.mk db1.datarooms db1.folders db1.files db1.blobs (db1.nextId + 1)
        (db1.clock + 1)) := rfl
  have hfalse : (db1.folders.any (fun f => f.id == db1.nextId)) = false := by
    rw [List.any_eq_false]
    intro f hf
    have hlt := (hI f hf).1
    simp only [beq_iff_eq]
    omega
  have h3 : FolderRepo.insert
        (Folder.mk db1.nextId dataroomId parentId finalName db1.clock
          db1.clock)
        (DB.mk db1.datarooms db1.folders db1.files db1.blobs (db1.nextId + 1)
          (db1.clock + 1)) =
      (.ok db1.nextId,
       DB.mk db1.datarooms
         (db1.folders ++ [Folder.mk db1.nextId dataroomId parentId finalName
            db1.clock db1.clock])
         db1.files db1.blobs (db1.nextId + 1) (db1.clock + 1)) := by
    unfold FolderRepo.insert
    simp only [hfalse, Bool.false_eq_true, if_false]
  rw [M.bind, h1]
  simp only []
  rw [M.bind, h2]
  simp only []
  rw [M.bind, h3]
  simp only []
  have hIns : Inv (DB.mk db1.datarooms
      (db1.folders ++ [Folder.mk db1.nextId dataroomId parentId finalName
        db1.clock db1.clock])
      db1.files db1.blobs (db1.nextId + 1) (db1.clock + 1)) := by
    intro f hf
    rcases List.mem_append.mp hf with hf1 | hf2
    · obtain ⟨hlt, hpar⟩ := hI f hf1
      exact ⟨Nat.lt_succ_of_lt hlt, hpar⟩
    · rcases List.mem_singleton.mp hf2 with rfl
      refine ⟨Nat.lt_succ_self _, ?_⟩
      intro q hq2
      exact hq q hq2
  exact folderSafe_bind (fs_dr_touch dataroomId)
    (fun v => folderSafe_pure _) |>.preserves hIns

theorem create_preserves_inv (name : JSStr) (dataroomId : Nat)
    (parentId : Option Nat) (action : NameCollisionAction) (db : DB)
    (hInv : Inv db) :
    Inv ((FolderService.create name dataroomId parentId action) db).2 := by
  unfold FolderService.create
  rcases hv : validateName (normalizeName name) NameKind.folder with e | u
  · simp only [Bind.bind, M.bind, M.liftExcept, hv]
    exact hInv
  simp only [Bind.bind, M.bind, M.liftExcept, hv]
  rw [run_getRequiredD]
  rcases hd : db.datarooms.find? (fun d => d.id == dataroomId) with _ | dRec
  · rw [hd]
    exact hInv
  rw [hd]
  simp only []
  cases parentId with
  | none =>
    simp only [M.bind, Pure.pure, M.pure, FolderRepo.nameExistsInParent,
      FolderRepo.listByParent, Bind.bind]
    split
    · cases action with
      | cancel => exact hInv
      | replace => exact hInv
      | keepBoth =>
        exact createTail_inv _ _ _ db hInv (fun q hq => Option.noConfusion hq)
    · exact createTail_inv _ _ _ db hInv (fun q hq => Option.noConfusion hq)
  | some p =>
    simp only []
    rw [M.bind, run_getRequiredFo]
    rcases hp : db.folders.find? (fun f => f.id == p) with _ | pf
    · rw [hp]
      exact hInv
    rw [hp]
    simp only []
    have hmem := List.mem_of_find?_eq_some hp
    have hpid : pf.id = p := by
      have h := List.find?_some hp
      simpa using h
    have hplt : p < db.nextId := hpid ▸ (hInv pf hmem).1
    simp only [M.bind, Pure.pure, M.pure, FolderRepo.nameExistsInParent,
      FolderRepo.listByParent, Bind.bind]
    split
    · cases action with
      | cancel => exact hInv
      | replace => exact hInv
      | keepBoth =>
        exact createTail_inv _ _ _ db hInv
          (fun q hq => (Option.some.inj hq) ▸ hplt)
    · exact createTail_inv _ _ _ db hInv
        (fun q hq => (Option.some.inj hq) ▸ hplt)

theorem inv_of_reachable {db : DB} (h : Reachable db) : Inv db := by
  induction h with
  | empty =>
    intro f hf
    simp [DB.empty] at hf
  | dataroomCreate name h ih => exact (fs_dataroomCreate name).preserves ih
  | dataroomRename id name h ih =>
    exact (fs_dataroomRename id name).preserves ih
  | dataroomDelete id h ih => exact (fs_dataroomDelete id).preserves ih
  | folderCreate name dataroomId parentId action h ih =>
    exact create_preserves_inv name dataroomId parentId action _ ih
  | folderRename id name action h ih =>
    exact (fs_folderRename id name action).preserves ih
  | folderMove id newParentId h ih =>
    exact (fs_folderMove id newParentId).preserves ih
  | folderDelete id h ih => exact (fs_folderDelete id).preserves ih
  | fileUpload file dataroomId parentId action h ih =>
    exact (fs_fileUpload file dataroomId parentId action).preserves ih
  | fileRename id name action h ih =>
    exact (fs_fileRename id name action).preserves ih
  | fileMove id newParentId h ih =>
    exact (fs_fileMove id newParentId).preserves ih
  | fileDelete id h ih => exact (fs_fileDelete id).preserves ih

/-- C8: in every state reachable from the empty store by any sequence of
`DataroomService`, `FolderService`, and `FileService` operations (create,
upload, rename, move, delete — counting failed calls too), no folder is its
own ancestor: the transitive closure of the stored parent-link relation
`ParentOf` never connects a folder id back to itself, so following
`parentId` links upward never revisits the starting folder. -/
theorem no_folder_is_own_ancestor (db : DB) (h : Reachable db) (x : Nat) :
    ¬ Relation.TransGen (ParentOf db) x x := by
  intro hx
  have hInv := inv_of_reachable h
  have hmono : ∀ a b, ParentOf db a b → a < b := by
    rintro a b ⟨f, hf, rfl, hpar⟩
    exact (hInv f hf).2 a hpar
  have h2 := Relation.TransGen.mono hmono hx
  have htr : Transitive (fun a b : Nat => a < b) :=
    fun a b c hab hbc => Nat.lt_trans hab hbc
  rw [Relation.transGen_eq_self htr] at h2
  exact absurd h2 (lt_irrefl x)

/-- C8 witness: instantiating the theorem on the concrete reachable store
built by creating a dataroom (assigned id 0) in the empty store and then a
root folder (assigned id 1) in room 0 — folder 1 is not its own ancestor
there. -/
theorem no_folder_is_own_ancestor_witness :
    ¬ Relation.TransGen
      (ParentOf (FolderService.create "docs".data 0 none
        NameCollisionAction.keepBoth
        (DataroomService.create "Room".data DB.empty).2).2) 1 1 :=
  no_folder_is_own_ancestor _
    (Reachable.folderCreate "docs".data 0 none NameCollisionAction.keepBoth
      (Reachable.dataroomCreate "Room".data Reachable.empty)) 1


end Spa
